import Mathlib

/-
Verification of the host lifecycle rules implemented in the FreeIPA host
plugin (ipalib/plugins/host.py).  The directory backend, the certificate
library and the base64 codec are external collaborators; they are modelled
as explicit state values and function parameters.  Machine-level Python
details that matter (star-args tuples being immutable, dict key presence,
str.replace and list.remove semantics) are reproduced faithfully.
-/

set_option autoImplicit false

namespace HostPlugin

/-- Errors raised by the plugin or surfaced from the backend.  The source
uses errors.NotFound, errors.ACIError (for the principal immutability
violation), errors.GenericError (for the duplicate certificate rejection),
the DNS check failure from util.validate_host_dns, the malformed principal
error from split_principal, and the Python TypeError. -/
inductive Err where
  | notFound
  | aciError (info : String)
  | genericError (format : String)
  | dnsError
  | malformed
  | typeError
deriving DecidableEq

/-- Payload values passed to a pre callback: scalar strings (parameter
values) or lists of strings (the shared objectclass list). -/
inductive PVal where
  | str (s : String)
  | list (l : List String)
deriving DecidableEq

/-- Python truthiness of a payload value: empty strings and empty lists
are falsy. -/
def pvTruthy : PVal → Bool
  | PVal.str s => !(s == "")
  | PVal.list l => !l.isEmpty

/-- The LDAP values an update writes for a payload value. -/
def pvalToVals : PVal → List String
  | PVal.str s => [s]
  | PVal.list l => l

/-- A pre callback payload (the entry_attrs dict): key to value. -/
abbrev Payload := List (String × PVal)

/-- A stored directory entry: attribute name to list of values. -/
abbrev Entry := List (String × List String)

/-- The directory backend state: dn to entry. -/
abbrev Db := List (String × Entry)

/-- Dict lookup on a payload (first binding wins, as in a Python dict,
whose keys are unique). -/
def pGet (p : Payload) (k : String) : Option PVal :=
  (p.find? (fun kv => kv.1 == k)).map (fun kv => kv.2)

/-- Membership test for a payload key (the Python in operator on a dict). -/
def pHasKey (p : Payload) (k : String) : Bool :=
  (pGet p k).isSome

/-- Dict assignment: any previous binding of the key is replaced. -/
def pSet (p : Payload) (k : String) (v : PVal) : Payload :=
  p.filter (fun kv => !(kv.1 == k)) ++ [(k, v)]

/-- Dict deletion. -/
def pDel (p : Payload) (k : String) : Payload :=
  p.filter (fun kv => !(kv.1 == k))

/-- The binding an update will actually write for a key (the latest one). -/
def pGetLast (p : Payload) (k : String) : Option PVal :=
  (p.reverse.find? (fun kv => kv.1 == k)).map (fun kv => kv.2)

/-- Read the objectclass list value of a payload key (the source indexes
the dict directly; entries built by the pipeline always carry the list). -/
def pGetListD (p : Payload) (k : String) : List String :=
  match pGet p k with
  | some (PVal.list l) => l
  | _ => []

/-- Attribute lookup on a stored entry. -/
def eGetA (e : Entry) (k : String) : Option (List String) :=
  (e.find? (fun kv => kv.1 == k)).map (fun kv => kv.2)

/-- An attribute is present when it has at least one value (LDAP never
returns empty-valued attributes). -/
def eHasAttr (e : Entry) (k : String) : Bool :=
  match eGetA e k with
  | some vs => !vs.isEmpty
  | none => false

/-- Write an attribute on a stored entry; writing no values removes it. -/
def eSetA (e : Entry) (k : String) (vs : List String) : Entry :=
  if vs.isEmpty then e.filter (fun kv => !(kv.1 == k))
  else e.filter (fun kv => !(kv.1 == k)) ++ [(k, vs)]

/-- Fetch an entry by identifier, projected to the requested attributes
(the backend get_entry primitive). -/
def dbGetEntry (db : Db) (dn : String) (attrs : List String) : Except Err Entry :=
  match db.find? (fun de => de.1 == dn) with
  | some de => Except.ok (de.2.filter (fun kv => attrs.contains kv.1))
  | none => Except.error Err.notFound

/-- Look up the full entry stored under an identifier. -/
def dbLookupDn (db : Db) (dn : String) : Option Entry :=
  (db.find? (fun de => de.1 == dn)).map (fun de => de.2)

/-- Apply a pre callback payload to a stored entry, attribute by attribute
(the backend update primitive, modelled from the spec section 4.3). -/
def applyPayload (e : Entry) (p : Payload) : Entry :=
  p.foldl (fun acc kv => eSetA acc kv.1 (pvalToVals kv.2)) e

/-- Update the entry stored under an identifier. -/
def dbUpdate (db : Db) (dn : String) (p : Payload) : Db :=
  db.map (fun de => if de.1 == dn then (de.1, applyPayload de.2 p) else de)

/-- Build the created entry from the final add payload. -/
def payloadToEntry (p : Payload) : Entry :=
  applyPayload [] p

/-- External collaborators consumed by host_mod: the base64 decoder and
the certificate parser returning the serial number of a DER blob. -/
structure Collab where
  b64decode : String → String
  getSerialNumber : String → Nat

/-- Substring test on character lists (the Python in operator on
strings, and the LDAP substring search behind service_find). -/
def containsSeq (needle : List Char) : List Char → Bool
  | [] => needle.isEmpty
  | x :: xs => needle.isPrefixOf (x :: xs) || containsSeq needle xs

/-- Substring test on strings. -/
def strContains (hay needle : String) : Bool :=
  containsSeq needle.toList hay.toList

/-- Split a character list at every occurrence of a separator. -/
def splitOnSep (c : Char) : List Char → List (List Char)
  | [] => [[]]
  | x :: xs =>
    match splitOnSep c xs with
    | [] => [[]]
    | h :: t => if x == c then [] :: h :: t else (x :: h) :: t

/-- The portion of the host name before the first dot, as computed by
keys[-1].split with one split in host_add (the serverhostname value). -/
def shortNameOf (key : String) : String :=
  String.mk ((splitOnSep '.' key.toList).headD key.toList)

/-- The first label of a key before the first dot, as the spec words it
for the fallback resolution (section 4.3).  Same derivation as
shortNameOf; kept separate because it formalises the claim side. -/
def specFirstLabel (key : String) : String :=
  String.mk ((splitOnSep '.' key.toList).headD key.toList)

/-- validate_host from the source: require at least one dot in the
hostname; returns the error text on failure, None on success. -/
def validate_host (fqdn : String) : Option String :=
  if strContains fqdn "." then none
  else some "Fully-qualified hostname required"

/-- Python str.endswith with a single dot. -/
def endsWithDot (key : String) : Bool :=
  key.toList.getLast? == some '.'

/-- The identifier super().get_dn derives from the primary key (the
container placement is owned by the backend; modelled from the spec
section 4.3). -/
def makeDn (key : String) : String :=
  "fqdn=" ++ key ++ ",cn=computers,cn=accounts"

/-- The backend find_entry_by_attr primitive: first entry whose attribute
carries the given value (modelled from the spec section 4.3; the
objectclass filter and search base of the call are owned by the backend
and the state holds host entries only). -/
def find_entry_by_attr (db : Db) (attr : String) (value : String) : Option String :=
  (db.find? (fun de => ((eGetA de.2 attr).getD []).contains value)).map (fun de => de.1)

/-- host.get_dn from the source.  The parameter keys of the Python method
is a star-args tuple; the statement that is meant to strip a trailing dot
assigns into that tuple, and tuple item assignment raises TypeError, so
any key ending in a dot aborts before resolution.  Otherwise the derived
identifier is probed with get_entry; on NotFound the code retries
find_entry_by_attr on serverhostname with the whole key, and if that also
fails it returns the originally derived identifier. -/
def get_dn (db : Db) (key : String) : Except Err String :=
  if endsWithDot key then Except.error Err.typeError
  else
    match db.find? (fun de => de.1 == makeDn key) with
    | some _ => Except.ok (makeDn key)
    | none =>
      match find_entry_by_attr db "serverhostname" key with
      | some dn2 => Except.ok dn2
      | none => Except.ok (makeDn key)

/-- C7: the claim says a trailing dot is stripped from the primary key
before resolution and the resolution step does not fail on account of the
trailing separator.  The code clearly intends this (it tests endswith)
but assigns into the star-args tuple, which raises TypeError, so every
key with a trailing dot makes resolution fail; the same key without the
dot resolves.  This evaluates the code at the failing input. -/
theorem c7_trailing_dot_bug :
    get_dn [] "name.example.com." = Except.error Err.typeError ∧
    get_dn [] "name.example.com" = Except.ok (makeDn "name.example.com") := by
  constructor <;> rfl

/-- C8 counterexample: the claim says the fallback matches the secondary
short name attribute against the first label of the key before the first
dot and returns the first such match or NotFound.  With a stored host
whose serverhostname is the first label of the supplied key, the code
does not return that match (nor NotFound): it matches the whole key and
falls back to the unresolved identifier. -/
theorem c8_counterexample :
    get_dn [(makeDn "web.example.com", [("serverhostname", ["web"])])]
        "web.nonexistent.com"
      = Except.ok (makeDn "web.nonexistent.com") ∧
    find_entry_by_attr
        [(makeDn "web.example.com", [("serverhostname", ["web"])])]
        "serverhostname" (specFirstLabel "web.nonexistent.com")
      = some (makeDn "web.example.com") ∧
    makeDn "web.nonexistent.com" ≠ makeDn "web.example.com" := by
  refine ⟨by rfl, by rfl, by decide⟩

/-- C8 amended: when direct resolution of a key (with no trailing dot)
fails, the resolver retries by matching the serverhostname attribute
against the entire supplied key; it returns the identifier of the first
matching entry, and when no entry matches it returns the originally
derived identifier unchanged, so the failure surfaces as NotFound only at
the subsequent backend access. -/
theorem c8_fallback_amended (db : Db) (key : String)
    (h1 : endsWithDot key = false)
    (h2 : db.find? (fun de => de.1 == makeDn key) = none) :
    (∀ de : String × Entry,
      db.find? (fun de2 => ((eGetA de2.2 "serverhostname").getD []).contains key) = some de →
      get_dn db key = Except.ok de.1 ∧ de ∈ db ∧
        ((eGetA de.2 "serverhostname").getD []).contains key = true) ∧
    (db.find? (fun de2 => ((eGetA de2.2 "serverhostname").getD []).contains key) = none →
      get_dn db key = Except.ok (makeDn key)) := by
  have hgd : get_dn db key =
      (match find_entry_by_attr db "serverhostname" key with
       | some dn2 => Except.ok dn2
       | none => Except.ok (makeDn key)) := by
    unfold get_dn
    rw [if_neg (by simp [h1]), h2]
  constructor
  · intro de hfind
    have hp := List.find?_some hfind
    have hm := List.mem_of_find?_eq_some hfind
    refine ⟨?_, hm, hp⟩
    rw [hgd]
    unfold find_entry_by_attr
    rw [hfind]
    rfl
  · intro hnone
    rw [hgd]
    unfold find_entry_by_attr
    rw [hnone]
    rfl

/-- C8 witness: a bare short name key that fails direct resolution and is
found through the serverhostname fallback. -/
theorem c8_witness :
    get_dn [(makeDn "other.example.com", [("serverhostname", ["web"])])] "web"
      = Except.ok (makeDn "other.example.com") :=
  ((c8_fallback_amended
      [(makeDn "other.example.com", [("serverhostname", ["web"])])] "web"
      (by decide) (by decide)).1
    (makeDn "other.example.com", [("serverhostname", ["web"])]) (by decide)).1

/-! Association list lemmas shared by the payload and entry operations. -/

theorem find_keyFilter_none {α : Type} (l : List (String × α)) (k : String) :
    (l.filter (fun kv => !(kv.1 == k))).find? (fun kv => kv.1 == k) = none := by
  rw [List.find?_eq_none]
  intro x hx
  have hpass := (List.mem_filter.mp hx).2
  simp only [Bool.not_eq_true', beq_eq_false_iff_ne] at hpass
  simp [hpass]

theorem find_keyFilter_other {α : Type} (l : List (String × α)) (k k' : String)
    (h : k' ≠ k) :
    (l.filter (fun kv => !(kv.1 == k))).find? (fun kv => kv.1 == k') =
      l.find? (fun kv => kv.1 == k') := by
  induction l with
  | nil => rfl
  | cons x xs ih =>
    by_cases hx : x.1 = k
    · have hkk : (k == k') = false := by simp [Ne.symm h]
      simp [List.filter_cons, hx, List.find?_cons, hkk, ih]
    · by_cases hx' : x.1 = k'
      · simp [List.filter_cons, hx, List.find?_cons, hx', h, ih]
      · simp [List.filter_cons, hx, List.find?_cons, hx', ih]

theorem pGet_set_self (p : Payload) (k : String) (v : PVal) :
    pGet (pSet p k v) k = some v := by
  unfold pGet pSet
  rw [List.find?_append, find_keyFilter_none]
  simp

theorem pGet_set_other (p : Payload) (k k' : String) (v : PVal) (h : k' ≠ k) :
    pGet (pSet p k v) k' = pGet p k' := by
  unfold pGet pSet
  rw [List.find?_append, find_keyFilter_other p k k' h]
  cases hf : p.find? (fun kv => kv.1 == k') with
  | some x => simp
  | none => simp [List.find?_cons, Ne.symm h]

theorem pGet_del_self (p : Payload) (k : String) :
    pGet (pDel p k) k = none := by
  unfold pGet pDel
  rw [find_keyFilter_none]
  rfl

theorem pGet_del_other (p : Payload) (k k' : String) (h : k' ≠ k) :
    pGet (pDel p k) k' = pGet p k' := by
  unfold pGet pDel
  rw [find_keyFilter_other p k k' h]

theorem pGetLast_cons (b : String × PVal) (p : Payload) (k : String) :
    pGetLast (b :: p) k =
      match pGetLast p k with
      | some v => some v
      | none => if b.1 == k then some b.2 else none := by
  unfold pGetLast
  rw [List.reverse_cons, List.find?_append]
  cases hf : p.reverse.find? (fun kv => kv.1 == k) with
  | some x => rfl
  | none =>
    cases hb : b.1 == k <;> simp [List.find?_cons, List.find?_nil, hb]

theorem pGetLast_set_self (p : Payload) (k : String) (v : PVal) :
    pGetLast (pSet p k v) k = some v := by
  unfold pGetLast pSet
  rw [List.reverse_append]
  simp [List.find?_cons]

theorem filter_reverse_comm {α : Type} (l : List α) (q : α → Bool) :
    (l.filter q).reverse = l.reverse.filter q :=
  (List.filter_reverse q l).symm

theorem pGetLast_set_other (p : Payload) (k k' : String) (v : PVal) (h : k' ≠ k) :
    pGetLast (pSet p k v) k' = pGetLast p k' := by
  unfold pGetLast pSet
  rw [List.reverse_append]
  simp only [List.reverse_cons, List.reverse_nil, List.nil_append, List.singleton_append]
  rw [List.find?_cons]
  have hk : (k == k') = false := by simp [Ne.symm h]
  rw [hk]
  rw [filter_reverse_comm]
  rw [find_keyFilter_other p.reverse k k' h]

theorem pGetLast_del_other (p : Payload) (k k' : String) (h : k' ≠ k) :
    pGetLast (pDel p k) k' = pGetLast p k' := by
  unfold pGetLast pDel
  rw [filter_reverse_comm, find_keyFilter_other p.reverse k k' h]

theorem pGet_none_iff (p : Payload) (k : String) :
    pGet p k = none ↔ pGetLast p k = none := by
  unfold pGet pGetLast
  simp [List.find?_eq_none, List.mem_reverse]

theorem eGetA_setA_self (e : Entry) (k : String) (vs : List String) :
    eGetA (eSetA e k vs) k = if vs.isEmpty then none else some vs := by
  unfold eGetA eSetA
  cases hvs : vs.isEmpty
  · simp only [hvs, if_neg, Bool.false_eq_true, if_false]
    rw [List.find?_append, find_keyFilter_none]
    simp
  · simp only [hvs, if_true]
    rw [find_keyFilter_none]
    rfl

theorem eGetA_setA_other (e : Entry) (k k' : String) (vs : List String) (h : k' ≠ k) :
    eGetA (eSetA e k vs) k' = eGetA e k' := by
  unfold eGetA eSetA
  cases hvs : vs.isEmpty
  · simp only [hvs, Bool.false_eq_true, if_false]
    rw [List.find?_append, find_keyFilter_other e k k' h]
    cases hf : e.find? (fun kv => kv.1 == k') with
    | some x => simp
    | none => simp [List.find?_cons, List.find?_nil, Ne.symm h]
  · simp only [hvs, if_true]
    rw [find_keyFilter_other e k k' h]

theorem eGetA_filterAttrs (e : Entry) (attrs : List String) (k : String) :
    eGetA (e.filter (fun kv => attrs.contains kv.1)) k =
      if attrs.contains k then eGetA e k else none := by
  induction e with
  | nil => cases h : attrs.contains k <;> simp [eGetA, h]
  | cons x xs ih =>
    unfold eGetA
    rw [List.filter_cons]
    by_cases hx : x.1 = k
    · subst hx
      cases hcx : attrs.contains x.1
      · simp only [Bool.false_eq_true, if_false]
        unfold eGetA at ih
        rw [ih, hcx]
        simp
      · simp only [if_true]
        rw [List.find?_cons, List.find?_cons]
        simp [hcx]
    · have hbx : (x.1 == k) = false := by simp [hx]
      cases hcx : attrs.contains x.1
      · simp only [Bool.false_eq_true, if_false]
        unfold eGetA at ih
        rw [ih]
        rw [List.find?_cons, hbx]
      · simp only [if_true]
        rw [List.find?_cons, hbx]
        unfold eGetA at ih
        rw [ih]
        rw [List.find?_cons, hbx]

theorem eHasAttr_filterAttrs (e : Entry) (attrs : List String) (k : String)
    (h : attrs.contains k = true) :
    eHasAttr (e.filter (fun kv => attrs.contains kv.1)) k = eHasAttr e k := by
  unfold eHasAttr
  rw [eGetA_filterAttrs, h]
  simp

theorem applyPayload_cons (e : Entry) (b : String × PVal) (p : Payload) :
    applyPayload e (b :: p) = applyPayload (eSetA e b.1 (pvalToVals b.2)) p := rfl

theorem applyPayload_getA (p : Payload) (e : Entry) (k : String) :
    eGetA (applyPayload e p) k =
      match pGetLast p k with
      | some v => if (pvalToVals v).isEmpty then none else some (pvalToVals v)
      | none => eGetA e k := by
  induction p generalizing e with
  | nil => simp [applyPayload, pGetLast]
  | cons b rest ih =>
    rw [applyPayload_cons, ih, pGetLast_cons]
    cases hL : pGetLast rest k with
    | some v => rfl
    | none =>
      by_cases hb : b.1 = k
      · have hbb : (b.1 == k) = true := by simp [hb]
        simp only [hbb, if_true]
        rw [← hb, eGetA_setA_self]
      · have hbb : (b.1 == k) = false := by simp [hb]
        simp only [hbb, Bool.false_eq_true, if_false]
        rw [eGetA_setA_other e b.1 k (pvalToVals b.2) (Ne.symm hb)]

theorem dbLookupDn_update (db : Db) (dn : String) (p : Payload) :
    dbLookupDn (dbUpdate db dn p) dn =
      (dbLookupDn db dn).map (fun e => applyPayload e p) := by
  induction db with
  | nil => rfl
  | cons de rest ih =>
    by_cases h : de.1 = dn
    · simp [dbUpdate, dbLookupDn, List.find?_cons, h]
    · have hb : (de.1 == dn) = false := by simp [h]
      simp only [dbUpdate, List.map_cons, hb, Bool.false_eq_true, if_false]
      simp only [dbLookupDn, List.find?_cons, hb] at ih ⊢
      exact ih

theorem dbGetEntry_of_lookup (db : Db) (dn : String) (attrs : List String) (e : Entry)
    (h : dbLookupDn db dn = some e) :
    dbGetEntry db dn attrs = Except.ok (e.filter (fun kv => attrs.contains kv.1)) := by
  unfold dbLookupDn at h
  unfold dbGetEntry
  cases hf : db.find? (fun de => de.1 == dn) with
  | some de =>
    rw [hf] at h
    simp only [Option.map_some', Option.some.injEq] at h
    show Except.ok (de.2.filter (fun kv => attrs.contains kv.1)) =
      Except.ok (e.filter (fun kv => attrs.contains kv.1))
    rw [h]
  | none => rw [hf] at h; simp at h

theorem dbGetEntry_of_lookup_none (db : Db) (dn : String) (attrs : List String)
    (h : dbLookupDn db dn = none) :
    dbGetEntry db dn attrs = Except.error Err.notFound := by
  unfold dbLookupDn at h
  unfold dbGetEntry
  cases hf : db.find? (fun de => de.1 == dn) with
  | some de => rw [hf] at h; simp at h
  | none => rfl

/-! The locality alias applied by the add and modify pre callbacks:
entry_attrs of key l receives the locality value and the locality key is
deleted. -/

def localityAlias (p : Payload) : Payload :=
  match pGet p "locality" with
  | some v => pDel (pSet p "l" v) "locality"
  | none => p

theorem localityAlias_pGet (p : Payload) (k : String)
    (h1 : k ≠ "l") (h2 : k ≠ "locality") :
    pGet (localityAlias p) k = pGet p k := by
  unfold localityAlias
  cases hv : pGet p "locality" with
  | some v => rw [pGet_del_other _ _ _ h2, pGet_set_other _ _ _ _ h1]
  | none => rfl

theorem localityAlias_pGetLast (p : Payload) (k : String)
    (h1 : k ≠ "l") (h2 : k ≠ "locality") :
    pGetLast (localityAlias p) k = pGetLast p k := by
  unfold localityAlias
  cases hv : pGet p "locality" with
  | some v => rw [pGetLast_del_other _ _ _ h2, pGetLast_set_other _ _ _ _ h1]
  | none => rfl

theorem localityAlias_pHasKey (p : Payload) (k : String)
    (h1 : k ≠ "l") (h2 : k ≠ "locality") :
    pHasKey (localityAlias p) k = pHasKey p k := by
  unfold pHasKey
  rw [localityAlias_pGet p k h1 h2]

/-! host_mod.pre_callback from the source, split into its two blocks. -/

/-- First block of host_mod.pre_callback: once a principal name is set it
cannot be changed.  If the payload carries krbprincipalname, fetch the
stored objectclass and krbprincipalname; a stored principal raises
ACIError; otherwise the krbprincipalaux class is ensured on the
objectclass list handed to the update. -/
def host_mod_principal_step (db : Db) (dn : String) (ea : Payload) :
    Except Err Payload :=
  if pHasKey ea "krbprincipalname" then
    match dbGetEntry db dn ["objectclass", "krbprincipalname"] with
    | Except.error e => Except.error e
    | Except.ok old =>
      if eHasAttr old "krbprincipalname" then
        Except.error (Err.aciError "Principal name already set, it is unchangeable.")
      else
        if ((eGetA old "objectclass").getD []).contains "krbprincipalaux" then
          Except.ok ea
        else
          Except.ok (pSet ea "objectclass"
            (PVal.list (((eGetA old "objectclass").getD []) ++ ["krbprincipalaux"])))
  else Except.ok ea

/-- Second block of host_mod.pre_callback: a truthy certificate value in
the payload triggers a duplicate check against the stored entry; a stored
certificate raises GenericError carrying the stored serial number,
otherwise the payload value is base64 decoded in place.  A falsy value
skips the whole block. -/
def host_mod_cert_step (c : Collab) (db : Db) (dn : String) (ea : Payload) :
    Except Err Payload :=
  match pGet ea "usercertificate" with
  | some cert =>
    if pvTruthy cert then
      match dbGetEntry db dn ["usercertificate"] with
      | Except.error e => Except.error e
      | Except.ok old =>
        if eHasAttr old "usercertificate" then
          Except.error (Err.genericError
            ("entry already has a certificate, serial number: " ++
              toString (c.getSerialNumber (((eGetA old "usercertificate").getD []).headD ""))))
        else
          match cert with
          | PVal.str s => Except.ok (pSet ea "usercertificate" (PVal.str (c.b64decode s)))
          | PVal.list _ => Except.error Err.typeError
    else Except.ok ea
  | none => Except.ok ea

/-- host_mod.pre_callback from the source: locality aliasing, then the
principal immutability block, then the certificate block. -/
def host_mod_pre_callback (c : Collab) (db : Db) (dn : String) (entry_attrs : Payload) :
    Except Err Payload :=
  match host_mod_principal_step db dn (localityAlias entry_attrs) with
  | Except.error e => Except.error e
  | Except.ok ea2 => host_mod_cert_step c db dn ea2

/-- The modify pipeline around host_mod.pre_callback: a pre callback
failure surfaces the error with the state untouched, otherwise the backend
update applies the final payload (pipeline modelled from the spec
section 4.4). -/
def host_mod (c : Collab) (db : Db) (dn : String) (payload : Payload) :
    Db × Option Err :=
  match host_mod_pre_callback c db dn payload with
  | Except.error e => (db, some e)
  | Except.ok p => (dbUpdate db dn p, none)

/-- Recognise the immutability violation error. -/
def errIsAci : Err → Bool
  | Err.aciError _ => true
  | _ => false

/-- Recognise the duplicate certificate error. -/
def errIsDuplicateCert : Err → Bool
  | Err.genericError _ => true
  | _ => false

/-! Substring lemmas used for the error message and for the delete
cascade. -/

theorem isPrefixOf_append_self (n ys : List Char) :
    n.isPrefixOf (n ++ ys) = true := by
  induction n with
  | nil => cases ys <;> rfl
  | cons a m ih => simp [List.isPrefixOf, ih]

theorem containsSeq_append_mid (n xs ys : List Char) :
    containsSeq n (xs ++ (n ++ ys)) = true := by
  induction xs with
  | nil =>
    cases n with
    | nil => cases ys <;> simp [containsSeq, List.isPrefixOf]
    | cons a m => simp [containsSeq, isPrefixOf_append_self]
  | cons x xs ih => simp [containsSeq, ih]

theorem string_toList_append (a b : String) :
    (a ++ b).toList = a.toList ++ b.toList := by
  cases a
  cases b
  rfl

theorem strContains_append_right (a b : String) :
    strContains (a ++ b) b = true := by
  unfold strContains
  rw [string_toList_append]
  have := containsSeq_append_mid b.toList a.toList []
  rwa [List.append_nil] at this

/-! Shape lemmas about the two host_mod blocks. -/

theorem dbGetEntry_error (db : Db) (dn : String) (attrs : List String) (e0 : Err)
    (h : dbGetEntry db dn attrs = Except.error e0) : e0 = Err.notFound := by
  unfold dbGetEntry at h
  cases hf : db.find? (fun de => de.1 == dn) with
  | some de => rw [hf] at h; exact absurd h (by simp)
  | none => rw [hf] at h; injection h with h2; exact h2.symm

theorem host_mod_principal_step_skip (db : Db) (dn : String) (ea : Payload)
    (h : pHasKey ea "krbprincipalname" = false) :
    host_mod_principal_step db dn ea = Except.ok ea := by
  unfold host_mod_principal_step
  rw [h]
  rfl

theorem dbGetEntry_ok_lookup (db : Db) (dn : String) (attrs : List String) (old : Entry)
    (h : dbGetEntry db dn attrs = Except.ok old) :
    ∃ e2 : Entry, dbLookupDn db dn = some e2 ∧
      old = e2.filter (fun kv => attrs.contains kv.1) := by
  unfold dbGetEntry at h
  cases hf : db.find? (fun de => de.1 == dn) with
  | some de =>
    rw [hf] at h
    injection h with h2
    exact ⟨de.2, by unfold dbLookupDn; rw [hf]; rfl, h2.symm⟩
  | none => rw [hf] at h; exact absurd h (by simp)

theorem host_mod_principal_step_error_shape (db : Db) (dn : String) (ea : Payload) (e0 : Err)
    (h : host_mod_principal_step db dn ea = Except.error e0) :
    e0 = Err.notFound ∨ ∃ s, e0 = Err.aciError s := by
  unfold host_mod_principal_step at h
  split at h
  · split at h
    · rename_i e1 heq
      injection h with h2
      exact Or.inl (by rw [← h2]; exact dbGetEntry_error db dn _ e1 heq)
    · rename_i old heq
      split at h
      · injection h with h2
        exact Or.inr ⟨_, h2.symm⟩
      · split at h <;> exact absurd h (by simp)
  · exact absurd h (by simp)

theorem host_mod_principal_step_error_aci (db : Db) (dn : String) (ea : Payload) (s : String)
    (h : host_mod_principal_step db dn ea = Except.error (Err.aciError s)) :
    ∃ e2 : Entry, dbLookupDn db dn = some e2 ∧ eHasAttr e2 "krbprincipalname" = true := by
  unfold host_mod_principal_step at h
  split at h
  · split at h
    · rename_i e1 heq
      injection h with h2
      have hnf := dbGetEntry_error db dn _ e1 heq
      rw [hnf] at h2
      exact absurd h2 (by simp)
    · rename_i old heq
      split at h
      · rename_i hattr
        obtain ⟨e2, hlook, hold⟩ := dbGetEntry_ok_lookup db dn _ old heq
        refine ⟨e2, hlook, ?_⟩
        rw [hold] at hattr
        rwa [eHasAttr_filterAttrs e2 _ _ (by decide)] at hattr
      · split at h <;> exact absurd h (by simp)
  · exact absurd h (by simp)

theorem host_mod_principal_step_ok_pGet (db : Db) (dn : String) (ea ea2 : Payload)
    (k : String) (hk : k ≠ "objectclass")
    (h : host_mod_principal_step db dn ea = Except.ok ea2) :
    pGet ea2 k = pGet ea k := by
  unfold host_mod_principal_step at h
  split at h
  · split at h
    · exact absurd h (by simp)
    · rename_i old heq
      split at h
      · exact absurd h (by simp)
      · split at h
        · injection h with h2
          rw [← h2]
        · injection h with h2
          rw [← h2, pGet_set_other _ _ _ _ hk]
  · injection h with h2
    rw [← h2]

theorem host_mod_cert_step_skip (c : Collab) (db : Db) (dn : String) (ea : Payload)
    (v : PVal) (hv : pGet ea "usercertificate" = some v) (ht : pvTruthy v = false) :
    host_mod_cert_step c db dn ea = Except.ok ea := by
  unfold host_mod_cert_step
  rw [hv]
  simp [ht]

theorem host_mod_cert_step_error_shape (c : Collab) (db : Db) (dn : String) (ea : Payload)
    (e0 : Err) (h : host_mod_cert_step c db dn ea = Except.error e0) :
    errIsAci e0 = false := by
  unfold host_mod_cert_step at h
  split at h
  · split at h
    · split at h
      · rename_i e1 heq
        injection h with h2
        rw [← h2, dbGetEntry_error db dn _ e1 heq]
        rfl
      · rename_i old heq
        split at h
        · injection h with h2
          rw [← h2]
          rfl
        · split at h
          · exact absurd h (by simp)
          · injection h with h2
            rw [← h2]
            rfl
    · exact absurd h (by simp)
  · exact absurd h (by simp)

/-- C1: once a host has a stored, non-empty kerberosPrincipalName, any
modify payload that sets that field fails with the immutability violation
(errors.ACIError with the message from the source) before any backend
update, leaving the stored state unchanged; when no principal is stored,
a modify never fails with that error. -/
theorem c1_principal_immutability (c : Collab) (db : Db) (dn : String)
    (payload : Payload) (e : Entry) :
    (dbLookupDn db dn = some e → eHasAttr e "krbprincipalname" = true →
      pHasKey payload "krbprincipalname" = true →
      host_mod c db dn payload =
        (db, some (Err.aciError "Principal name already set, it is unchangeable."))) ∧
    ((∀ e2 : Entry, dbLookupDn db dn = some e2 → eHasAttr e2 "krbprincipalname" = false) →
      ∀ er : Err, (host_mod c db dn payload).2 = some er → errIsAci er = false) := by
  constructor
  · intro h1 h2 h3
    have hkey : pHasKey (localityAlias payload) "krbprincipalname" = true := by
      rw [localityAlias_pHasKey payload _ (by decide) (by decide)]
      exact h3
    have hstep : host_mod_principal_step db dn (localityAlias payload) =
        Except.error (Err.aciError "Principal name already set, it is unchangeable.") := by
      unfold host_mod_principal_step
      rw [hkey]
      simp only [if_true]
      rw [dbGetEntry_of_lookup db dn _ e h1]
      split
      · rename_i e1 he
        exact absurd he (by simp)
      · rename_i old hold
        injection hold with hold2
        rw [← hold2]
        rw [if_pos (by rw [eHasAttr_filterAttrs e _ _ (by decide)]; exact h2)]
    unfold host_mod host_mod_pre_callback
    rw [hstep]
  · intro hno er her
    cases hpre : host_mod_pre_callback c db dn payload with
    | ok p' => rw [host_mod, hpre] at her; exact absurd her (by simp)
    | error e0 =>
      rw [host_mod, hpre] at her
      simp only [Option.some.injEq] at her
      rw [← her]
      unfold host_mod_pre_callback at hpre
      cases hps : host_mod_principal_step db dn (localityAlias payload) with
      | error e1 =>
        rw [hps] at hpre
        injection hpre with h2
        rw [← h2]
        have hshape := host_mod_principal_step_error_shape db dn _ e1 hps
        cases hshape with
        | inl hn => rw [hn]; rfl
        | inr hs =>
          exfalso
          obtain ⟨s, hs⟩ := hs
          rw [hs] at hps
          obtain ⟨e2, hlook, hattr⟩ := host_mod_principal_step_error_aci db dn _ s hps
          rw [hno e2 hlook] at hattr
          exact absurd hattr (by simp)
      | ok ea2 =>
        rw [hps] at hpre
        exact host_mod_cert_step_error_shape c db dn ea2 e0 hpre

/-- C1 witness: a host with a stored principal rejects a payload setting
the principal, with the state returned untouched. -/
theorem c1_witness :
    host_mod ⟨fun s => s, fun _ => 42⟩
        [("dn1", [("krbprincipalname", ["host/a.b@R"]), ("objectclass", ["ipaobject"])])]
        "dn1" [("krbprincipalname", PVal.str "host/x@R")] =
      ([("dn1", [("krbprincipalname", ["host/a.b@R"]), ("objectclass", ["ipaobject"])])],
        some (Err.aciError "Principal name already set, it is unchangeable.")) :=
  (c1_principal_immutability ⟨fun s => s, fun _ => 42⟩
      [("dn1", [("krbprincipalname", ["host/a.b@R"]), ("objectclass", ["ipaobject"])])]
      "dn1" [("krbprincipalname", PVal.str "host/x@R")]
      [("krbprincipalname", ["host/a.b@R"]), ("objectclass", ["ipaobject"])]).1
    (by decide) (by decide) (by decide)

theorem host_mod_pre_callback_of_steps (c : Collab) (db : Db) (dn : String)
    (payload ea2 : Payload)
    (h : host_mod_principal_step db dn (localityAlias payload) = Except.ok ea2) :
    host_mod_pre_callback c db dn payload = host_mod_cert_step c db dn ea2 := by
  unfold host_mod_pre_callback
  rw [h]

theorem host_mod_pre_callback_of_error (c : Collab) (db : Db) (dn : String)
    (payload : Payload) (e1 : Err)
    (h : host_mod_principal_step db dn (localityAlias payload) = Except.error e1) :
    host_mod_pre_callback c db dn payload = Except.error e1 := by
  unfold host_mod_pre_callback
  rw [h]

/-- C2: a modify payload with a truthy certificate value is rejected with
the duplicate certificate error when the entry already stores one; the
message carries the stored serial number (via the certificate collaborator)
and the state, so in particular the stored certificate bytes, is returned
untouched.  When nothing is stored, the incoming value is base64 decoded
before the update writes it. -/
theorem c2_certificate_write_once (c : Collab) (db : Db) (dn : String)
    (payload : Payload) (e : Entry) (c0v : String) (rest : List String) (s : String) :
    (dbLookupDn db dn = some e →
     eGetA e "usercertificate" = some (c0v :: rest) →
     pGet payload "usercertificate" = some (PVal.str s) → (s == "") = false →
     pHasKey payload "krbprincipalname" = false →
      host_mod c db dn payload =
        (db, some (Err.genericError
          ("entry already has a certificate, serial number: " ++
            toString (c.getSerialNumber c0v)))) ∧
      strContains
        ("entry already has a certificate, serial number: " ++
          toString (c.getSerialNumber c0v))
        (toString (c.getSerialNumber c0v)) = true) ∧
    (dbLookupDn db dn = some e →
     eGetA e "usercertificate" = none →
     pGet payload "usercertificate" = some (PVal.str s) → (s == "") = false →
     pHasKey payload "krbprincipalname" = false →
      (host_mod c db dn payload).2 = none ∧
      eGetA ((dbLookupDn (host_mod c db dn payload).1 dn).getD []) "usercertificate"
        = some [c.b64decode s]) := by
  constructor
  · intro h1 h2 h3 h4 h5
    have hk : pHasKey (localityAlias payload) "krbprincipalname" = false := by
      rw [localityAlias_pHasKey payload _ (by decide) (by decide)]
      exact h5
    have hps := host_mod_principal_step_skip db dn (localityAlias payload) hk
    have hcv : pGet (localityAlias payload) "usercertificate" = some (PVal.str s) := by
      rw [localityAlias_pGet payload _ (by decide) (by decide)]
      exact h3
    have hcs : host_mod_cert_step c db dn (localityAlias payload) =
        Except.error (Err.genericError
          ("entry already has a certificate, serial number: " ++
            toString (c.getSerialNumber c0v))) := by
      unfold host_mod_cert_step
      rw [hcv]
      split
      · rename_i cert hcert
        injection hcert with hc2
        rw [← hc2]
        rw [if_pos (by simp [pvTruthy, h4])]
        rw [dbGetEntry_of_lookup db dn _ e h1]
        split
        · rename_i e1 he
          exact absurd he (by simp)
        · rename_i old hold
          injection hold with hold2
          rw [← hold2]
          have hproj : eGetA (e.filter (fun kv => (["usercertificate"]).contains kv.1))
              "usercertificate" = some (c0v :: rest) := by
            rw [eGetA_filterAttrs]
            simp [h2]
          rw [if_pos (by unfold eHasAttr; rw [hproj]; rfl)]
          rw [hproj]
          rfl
      · rename_i hcert
        exact absurd hcert (by simp)
    have hpre := host_mod_pre_callback_of_steps c db dn payload _ hps
    rw [hcs] at hpre
    constructor
    · unfold host_mod
      rw [hpre]
    · exact strContains_append_right _ _
  · intro h1 h2 h3 h4 h5
    have hk : pHasKey (localityAlias payload) "krbprincipalname" = false := by
      rw [localityAlias_pHasKey payload _ (by decide) (by decide)]
      exact h5
    have hps := host_mod_principal_step_skip db dn (localityAlias payload) hk
    have hcv : pGet (localityAlias payload) "usercertificate" = some (PVal.str s) := by
      rw [localityAlias_pGet payload _ (by decide) (by decide)]
      exact h3
    have hcs : host_mod_cert_step c db dn (localityAlias payload) =
        Except.ok (pSet (localityAlias payload) "usercertificate"
          (PVal.str (c.b64decode s))) := by
      unfold host_mod_cert_step
      rw [hcv]
      split
      · rename_i cert hcert
        injection hcert with hc2
        rw [← hc2]
        rw [if_pos (by simp [pvTruthy, h4])]
        rw [dbGetEntry_of_lookup db dn _ e h1]
        split
        · rename_i e1 he
          exact absurd he (by simp)
        · rename_i old hold
          injection hold with hold2
          rw [← hold2]
          have hproj : eGetA (e.filter (fun kv => (["usercertificate"]).contains kv.1))
              "usercertificate" = none := by
            rw [eGetA_filterAttrs]
            simp [h2]
          rw [if_neg (by unfold eHasAttr; rw [hproj]; simp)]
      · rename_i hcert
        exact absurd hcert (by simp)
    have hpre := host_mod_pre_callback_of_steps c db dn payload _ hps
    rw [hcs] at hpre
    have hm : host_mod c db dn payload =
        (dbUpdate db dn (pSet (localityAlias payload) "usercertificate"
          (PVal.str (c.b64decode s))), none) := by
      unfold host_mod
      rw [hpre]
    constructor
    · rw [hm]
    · rw [hm]
      simp only [dbLookupDn_update, h1, Option.map_some', Option.getD_some]
      rw [applyPayload_getA, pGetLast_set_self]
      rfl

/-- C2 witness: a stored certificate makes a certificate-setting modify
fail with the duplicate error carrying the collaborator serial number. -/
theorem c2_witness :
    host_mod ⟨fun s => s, fun _ => 42⟩
        [("dn1", [("usercertificate", ["CERTBYTES"])])] "dn1"
        [("usercertificate", PVal.str "QkFTRTY0")] =
      ([("dn1", [("usercertificate", ["CERTBYTES"])])],
        some (Err.genericError
          ("entry already has a certificate, serial number: " ++
            toString ((⟨fun s => s, fun _ => 42⟩ : Collab).getSerialNumber "CERTBYTES")))) :=
  ((c2_certificate_write_once ⟨fun s => s, fun _ => 42⟩
      [("dn1", [("usercertificate", ["CERTBYTES"])])] "dn1"
      [("usercertificate", PVal.str "QkFTRTY0")]
      [("usercertificate", ["CERTBYTES"])] "CERTBYTES" [] "QkFTRTY0").1
    (by decide) (by decide) (by decide) (by decide) (by decide)).1

/-- C10: a modify payload carrying the certificate key with a falsy value
skips both the duplicate check and the decode step: the operation never
fails with the duplicate error (even when a certificate is stored) and a
successful pre callback leaves the falsy value unchanged. -/
theorem c10_falsy_certificate_skip (c : Collab) (db : Db) (dn : String)
    (payload : Payload) (v : PVal) :
    pGet payload "usercertificate" = some v → pvTruthy v = false →
    ((∀ er : Err, (host_mod c db dn payload).2 = some er → errIsDuplicateCert er = false) ∧
     (∀ p' : Payload, host_mod_pre_callback c db dn payload = Except.ok p' →
       pGet p' "usercertificate" = some v)) := by
  intro hv ht
  have hva : pGet (localityAlias payload) "usercertificate" = some v := by
    rw [localityAlias_pGet payload _ (by decide) (by decide)]
    exact hv
  constructor
  · intro er her
    cases hps : host_mod_principal_step db dn (localityAlias payload) with
    | error e1 =>
      have hpre := host_mod_pre_callback_of_error c db dn payload e1 hps
      have hm : host_mod c db dn payload = (db, some e1) := by
        unfold host_mod
        rw [hpre]
      rw [hm] at her
      simp only [Option.some.injEq] at her
      rw [← her]
      have hshape := host_mod_principal_step_error_shape db dn _ e1 hps
      cases hshape with
      | inl hn => rw [hn]; rfl
      | inr hs => obtain ⟨s2, hs2⟩ := hs; rw [hs2]; rfl
    | ok ea2 =>
      have hpg : pGet ea2 "usercertificate" = some v := by
        rw [host_mod_principal_step_ok_pGet db dn _ ea2 _ (by decide) hps]
        exact hva
      have hcs := host_mod_cert_step_skip c db dn ea2 v hpg ht
      have hpre := host_mod_pre_callback_of_steps c db dn payload _ hps
      rw [hcs] at hpre
      have hm : host_mod c db dn payload = (dbUpdate db dn ea2, none) := by
        unfold host_mod
        rw [hpre]
      rw [hm] at her
      exact absurd her (by simp)
  · intro p' hp'
    cases hps : host_mod_principal_step db dn (localityAlias payload) with
    | error e1 =>
      have hpre := host_mod_pre_callback_of_error c db dn payload e1 hps
      rw [hpre] at hp'
      exact absurd hp' (by simp)
    | ok ea2 =>
      have hpg : pGet ea2 "usercertificate" = some v := by
        rw [host_mod_principal_step_ok_pGet db dn _ ea2 _ (by decide) hps]
        exact hva
      have hcs := host_mod_cert_step_skip c db dn ea2 v hpg ht
      have hpre := host_mod_pre_callback_of_steps c db dn payload _ hps
      rw [hcs] at hpre
      rw [hpre] at hp'
      injection hp' with h2
      rw [← h2]
      exact hpg

/-- C10 witness: a payload with an empty certificate value passes the pre
callback unchanged even though the stored entry carries a certificate. -/
theorem c10_witness :
    pGet [("usercertificate", PVal.str "")] "usercertificate" = some (PVal.str "") :=
  (c10_falsy_certificate_skip ⟨fun s => s, fun _ => 42⟩
      [("dn1", [("usercertificate", ["CERTBYTES"])])] "dn1"
      [("usercertificate", PVal.str "")] (PVal.str "")
      (by decide) (by decide)).2
    [("usercertificate", PVal.str "")] (by rfl)

/-! host_add.pre_callback from the source. -/

/-- The objectclass list the host object declares in the source; the
create pipeline seeds entry_attrs objectclass from it. -/
def host_object_class : List String :=
  ["ipaobject", "nshost", "ipahost", "pkiuser", "ipaservice"]

/-- The objectclass handling of the no-password branch of
host_add.pre_callback: when krbprincipalaux is not yet on the list, both
krbprincipalaux and krbprincipal are appended. -/
def host_add_oc_branch (ea : Payload) : Payload :=
  if (pGetListD ea "objectclass").contains "krbprincipalaux" then ea
  else pSet ea "objectclass"
    (PVal.list ((pGetListD ea "objectclass") ++ ["krbprincipalaux", "krbprincipal"]))

/-- The enrollment-password branch of host_add.pre_callback: without a
password the principal is assigned and the markers ensured; with a
password only krbprincipalaux is removed (first occurrence, Python
list.remove) when present. -/
def host_add_password_branch (realm key : String) (ea : Payload) : Payload :=
  if !(pHasKey ea "userpassword") then
    host_add_oc_branch
      (pSet ea "krbprincipalname" (PVal.str ("host/" ++ key ++ "@" ++ realm)))
  else
    if (pGetListD ea "objectclass").contains "krbprincipalaux" then
      pSet ea "objectclass" (PVal.list ((pGetListD ea "objectclass").erase "krbprincipalaux"))
    else ea

/-- host_add.pre_callback from the source: the DNS existence check
(collaborator, skipped under force), locality aliasing, the cn and
serverhostname derivations, the enrollment branch and the managedby
self reference. -/
def host_add_pre_callback (dns : String → Bool) (force : Bool)
    (realm dn key : String) (entry_attrs : Payload) : Except Err Payload :=
  if !force && !(dns key) then Except.error Err.dnsError
  else Except.ok (pSet (host_add_password_branch realm key
    (pSet (pSet (localityAlias entry_attrs) "cn" (PVal.str key))
      "serverhostname" (PVal.str (shortNameOf key)))) "managedby" (PVal.str dn))

/-- The add pipeline around host_add.pre_callback: entry_attrs is seeded
with the declared objectclass list, the pre callback runs, and on success
the backend creates the entry (pipeline modelled from the spec
section 4.4). -/
def host_add (dns : String → Bool) (force : Bool) (realm : String)
    (db : Db) (key : String) (payload : Payload) : Db × Option Err :=
  match host_add_pre_callback dns force realm (makeDn key) key
      (pSet payload "objectclass" (PVal.list host_object_class)) with
  | Except.error e => (db, some e)
  | Except.ok p => (db ++ [(makeDn key, payloadToEntry p)], none)

/-- The most recently created entry of a state. -/
def lastEntry (d : Db) : Entry :=
  (d.getLast?.map (fun de => de.2)).getD []

/-- Attribute of the most recently created entry. -/
def dbLastAttr (d : Db) (k : String) : Option (List String) :=
  eGetA (lastEntry d) k

/-- objectclass list of the most recently created entry. -/
def dbLastOC (d : Db) : List String :=
  (dbLastAttr d "objectclass").getD []

theorem getLast_append_single {α : Type} (l : List α) (a : α) :
    (l ++ [a]).getLast? = some a := by
  rw [List.getLast?_append_cons]
  rfl

theorem host_add_pre_ok (dns : String → Bool) (force : Bool)
    (realm dn key : String) (p0 : Payload)
    (hf : (!force && !(dns key)) = false) :
    host_add_pre_callback dns force realm dn key p0 =
      Except.ok (pSet (host_add_password_branch realm key
        (pSet (pSet (localityAlias p0) "cn" (PVal.str key))
          "serverhostname" (PVal.str (shortNameOf key)))) "managedby" (PVal.str dn)) := by
  unfold host_add_pre_callback
  rw [if_neg (by rw [hf]; simp)]

theorem host_add_created_attrs (dns : String → Bool) (force : Bool)
    (realm : String) (db : Db) (key : String) (payload : Payload)
    (hf : (!force && !(dns key)) = false) :
    (host_add dns force realm db key payload).2 = none ∧
    (pHasKey payload "userpassword" = false →
      dbLastAttr (host_add dns force realm db key payload).1 "krbprincipalname"
        = some ["host/" ++ key ++ "@" ++ realm] ∧
      dbLastAttr (host_add dns force realm db key payload).1 "objectclass"
        = some (host_object_class ++ ["krbprincipalaux", "krbprincipal"])) ∧
    (pHasKey payload "userpassword" = true →
     pHasKey payload "krbprincipalname" = false →
      dbLastAttr (host_add dns force realm db key payload).1 "krbprincipalname" = none ∧
      dbLastAttr (host_add dns force realm db key payload).1 "objectclass"
        = some host_object_class) := by
  have hpre := host_add_pre_ok dns force realm (makeDn key) key
    (pSet payload "objectclass" (PVal.list host_object_class)) hf
  have hOC : pGet (pSet (pSet (localityAlias
      (pSet payload "objectclass" (PVal.list host_object_class))) "cn" (PVal.str key))
        "serverhostname" (PVal.str (shortNameOf key))) "objectclass"
      = some (PVal.list host_object_class) := by
    rw [pGet_set_other _ _ _ _ (by decide), pGet_set_other _ _ _ _ (by decide),
      localityAlias_pGet _ _ (by decide) (by decide), pGet_set_self]
  have hOCLast : pGetLast (pSet (pSet (localityAlias
      (pSet payload "objectclass" (PVal.list host_object_class))) "cn" (PVal.str key))
        "serverhostname" (PVal.str (shortNameOf key))) "objectclass"
      = some (PVal.list host_object_class) := by
    rw [pGetLast_set_other _ _ _ _ (by decide), pGetLast_set_other _ _ _ _ (by decide),
      localityAlias_pGetLast _ _ (by decide) (by decide), pGetLast_set_self]
  have hUP : pHasKey (pSet (pSet (localityAlias
      (pSet payload "objectclass" (PVal.list host_object_class))) "cn" (PVal.str key))
        "serverhostname" (PVal.str (shortNameOf key))) "userpassword"
      = pHasKey payload "userpassword" := by
    unfold pHasKey
    rw [pGet_set_other _ _ _ _ (by decide), pGet_set_other _ _ _ _ (by decide),
      localityAlias_pGet _ _ (by decide) (by decide), pGet_set_other _ _ _ _ (by decide)]
  have hKLast : pGetLast (pSet (pSet (localityAlias
      (pSet payload "objectclass" (PVal.list host_object_class))) "cn" (PVal.str key))
        "serverhostname" (PVal.str (shortNameOf key))) "krbprincipalname"
      = pGetLast payload "krbprincipalname" := by
    rw [pGetLast_set_other _ _ _ _ (by decide), pGetLast_set_other _ _ _ _ (by decide),
      localityAlias_pGetLast _ _ (by decide) (by decide), pGetLast_set_other _ _ _ _ (by decide)]
  refine ⟨?_, ?_, ?_⟩
  · unfold host_add
    rw [hpre]
  · intro hup
    have hcond : (!(pHasKey (pSet (pSet (localityAlias
        (pSet payload "objectclass" (PVal.list host_object_class))) "cn" (PVal.str key))
          "serverhostname" (PVal.str (shortNameOf key))) "userpassword")) = true := by
      rw [hUP, hup]
      rfl
    have hlist : pGetListD (pSet (pSet (pSet (localityAlias
        (pSet payload "objectclass" (PVal.list host_object_class))) "cn" (PVal.str key))
          "serverhostname" (PVal.str (shortNameOf key))) "krbprincipalname"
            (PVal.str ("host/" ++ key ++ "@" ++ realm))) "objectclass"
        = host_object_class := by
      unfold pGetListD
      rw [pGet_set_other _ _ _ _ (by decide), hOC]
    have hbr : host_add_password_branch realm key (pSet (pSet (localityAlias
        (pSet payload "objectclass" (PVal.list host_object_class))) "cn" (PVal.str key))
          "serverhostname" (PVal.str (shortNameOf key)))
        = pSet (pSet (pSet (pSet (localityAlias
            (pSet payload "objectclass" (PVal.list host_object_class))) "cn" (PVal.str key))
              "serverhostname" (PVal.str (shortNameOf key))) "krbprincipalname"
                (PVal.str ("host/" ++ key ++ "@" ++ realm))) "objectclass"
            (PVal.list (host_object_class ++ ["krbprincipalaux", "krbprincipal"])) := by
      unfold host_add_password_branch
      rw [if_pos hcond]
      unfold host_add_oc_branch
      rw [hlist]
      rw [if_neg (by decide)]
    have hfinal : host_add dns force realm db key payload
        = (db ++ [(makeDn key, payloadToEntry (pSet (pSet (pSet (pSet (pSet (localityAlias
            (pSet payload "objectclass" (PVal.list host_object_class))) "cn" (PVal.str key))
              "serverhostname" (PVal.str (shortNameOf key))) "krbprincipalname"
                (PVal.str ("host/" ++ key ++ "@" ++ realm))) "objectclass"
            (PVal.list (host_object_class ++ ["krbprincipalaux", "krbprincipal"])))
              "managedby" (PVal.str (makeDn key))))], none) := by
      unfold host_add
      rw [hpre, hbr]
    rw [hfinal]
    unfold dbLastAttr lastEntry
    rw [getLast_append_single]
    simp only [Option.map_some', Option.getD_some]
    constructor
    · unfold payloadToEntry
      rw [applyPayload_getA]
      rw [pGetLast_set_other _ _ _ _ (by decide), pGetLast_set_other _ _ _ _ (by decide),
        pGetLast_set_self]
      rfl
    · unfold payloadToEntry
      rw [applyPayload_getA]
      rw [pGetLast_set_other _ _ _ _ (by decide), pGetLast_set_self]
      rfl
  · intro hup hkrb
    have hcond : (!(pHasKey (pSet (pSet (localityAlias
        (pSet payload "objectclass" (PVal.list host_object_class))) "cn" (PVal.str key))
          "serverhostname" (PVal.str (shortNameOf key))) "userpassword")) = false := by
      rw [hUP, hup]
      rfl
    have hlist2 : pGetListD (pSet (pSet (localityAlias
        (pSet payload "objectclass" (PVal.list host_object_class))) "cn" (PVal.str key))
          "serverhostname" (PVal.str (shortNameOf key))) "objectclass"
        = host_object_class := by
      unfold pGetListD
      rw [hOC]
    have hbr : host_add_password_branch realm key (pSet (pSet (localityAlias
        (pSet payload "objectclass" (PVal.list host_object_class))) "cn" (PVal.str key))
          "serverhostname" (PVal.str (shortNameOf key)))
        = pSet (pSet (localityAlias
            (pSet payload "objectclass" (PVal.list host_object_class))) "cn" (PVal.str key))
              "serverhostname" (PVal.str (shortNameOf key)) := by
      unfold host_add_password_branch
      rw [if_neg (by rw [hcond]; simp)]
      rw [hlist2]
      rw [if_neg (by decide)]
    have hfinal : host_add dns force realm db key payload
        = (db ++ [(makeDn key, payloadToEntry (pSet (pSet (pSet (localityAlias
            (pSet payload "objectclass" (PVal.list host_object_class))) "cn" (PVal.str key))
              "serverhostname" (PVal.str (shortNameOf key)))
              "managedby" (PVal.str (makeDn key))))], none) := by
      unfold host_add
      rw [hpre, hbr]
    rw [hfinal]
    unfold dbLastAttr lastEntry
    rw [getLast_append_single]
    simp only [Option.map_some', Option.getD_some]
    constructor
    · unfold payloadToEntry
      rw [applyPayload_getA]
      rw [pGetLast_set_other _ _ _ _ (by decide), hKLast]
      have hnone : pGetLast payload "krbprincipalname" = none := by
        rw [← pGet_none_iff]
        unfold pHasKey at hkrb
        cases hpg : pGet payload "krbprincipalname" with
        | none => rfl
        | some v => rw [hpg] at hkrb; exact absurd hkrb (by simp)
      rw [hnone]
      rfl
    · unfold payloadToEntry
      rw [applyPayload_getA]
      rw [pGetLast_set_other _ _ _ _ (by decide), hOCLast]
      rfl

/-- C3: an add without an enrollment password assigns the principal
host/<fqdn>@<realm> to the created entry and both Kerberos-enabling
object classes are present; an add with a password assigns no principal
and both classes are absent.  The krbprincipalname parameter carries the
no_create flag in the source, so an add payload never contains it. -/
theorem c3_add_principal_assignment (dns : String → Bool) (force : Bool)
    (realm : String) (db : Db) (key : String) (payload : Payload) :
    (force = true ∨ dns key = true) →
    ((pHasKey payload "userpassword" = false →
       (host_add dns force realm db key payload).2 = none ∧
       dbLastAttr (host_add dns force realm db key payload).1 "krbprincipalname"
         = some ["host/" ++ key ++ "@" ++ realm] ∧
       "krbprincipalaux" ∈ dbLastOC (host_add dns force realm db key payload).1 ∧
       "krbprincipal" ∈ dbLastOC (host_add dns force realm db key payload).1) ∧
     (pHasKey payload "userpassword" = true →
      pHasKey payload "krbprincipalname" = false →
       (host_add dns force realm db key payload).2 = none ∧
       dbLastAttr (host_add dns force realm db key payload).1 "krbprincipalname" = none ∧
       ¬("krbprincipalaux" ∈ dbLastOC (host_add dns force realm db key payload).1) ∧
       ¬("krbprincipal" ∈ dbLastOC (host_add dns force realm db key payload).1))) := by
  intro hforce
  have hf : (!force && !(dns key)) = false := by
    rcases hforce with h | h <;> simp [h]
  obtain ⟨h2none, hA, hB⟩ := host_add_created_attrs dns force realm db key payload hf
  constructor
  · intro hup
    obtain ⟨hk, ho⟩ := hA hup
    refine ⟨h2none, hk, ?_, ?_⟩ <;>
      · unfold dbLastOC
        rw [ho]
        decide
  · intro hup hkrb
    obtain ⟨hk, ho⟩ := hB hup hkrb
    refine ⟨h2none, hk, ?_, ?_⟩ <;>
      · unfold dbLastOC
        rw [ho]
        decide

/-- C3 witness: a concrete add without password and its created entry. -/
theorem c3_witness :
    (host_add (fun _ => true) true "EXAMPLE.COM" [] "test.example.com"
        [("description", PVal.str "web server")]).2 = none ∧
    dbLastAttr (host_add (fun _ => true) true "EXAMPLE.COM" [] "test.example.com"
        [("description", PVal.str "web server")]).1 "krbprincipalname"
      = some ["host/" ++ "test.example.com" ++ "@" ++ "EXAMPLE.COM"] ∧
    "krbprincipalaux" ∈ dbLastOC (host_add (fun _ => true) true "EXAMPLE.COM" []
        "test.example.com" [("description", PVal.str "web server")]).1 ∧
    "krbprincipal" ∈ dbLastOC (host_add (fun _ => true) true "EXAMPLE.COM" []
        "test.example.com" [("description", PVal.str "web server")]).1 :=
  (c3_add_principal_assignment (fun _ => true) true "EXAMPLE.COM" [] "test.example.com"
      [("description", PVal.str "web server")] (Or.inl rfl)).1 (by decide)

/-! C4: the marker invariant. -/

/-- The amended marker invariant: the krbprincipalaux class is on the
objectclass list exactly when the principal is present. -/
def krbMarkerInv (e : Entry) : Prop :=
  ("krbprincipalaux" ∈ (eGetA e "objectclass").getD []) ↔
    eHasAttr e "krbprincipalname" = true

/-- C4 counterexample: the claim reads the markers as the pair of object
classes host_add installs (krbprincipalaux and krbprincipal).  A modify
that sets the principal on an entry without one succeeds and adds only
krbprincipalaux: afterwards the principal is set but krbprincipal is
absent, so the biconditional with the full marker pair fails. -/
theorem c4_markers_counterexample :
    (host_mod ⟨fun s => s, fun _ => 0⟩
        [("dnX", [("objectclass", host_object_class), ("fqdn", ["a.example.com"])])] "dnX"
        [("krbprincipalname", PVal.str "host/a.example.com@EXAMPLE.COM")]).2 = none ∧
    eHasAttr ((dbLookupDn (host_mod ⟨fun s => s, fun _ => 0⟩
        [("dnX", [("objectclass", host_object_class), ("fqdn", ["a.example.com"])])] "dnX"
        [("krbprincipalname", PVal.str "host/a.example.com@EXAMPLE.COM")]).1 "dnX").getD [])
      "krbprincipalname" = true ∧
    "krbprincipalaux" ∈ (eGetA ((dbLookupDn (host_mod ⟨fun s => s, fun _ => 0⟩
        [("dnX", [("objectclass", host_object_class), ("fqdn", ["a.example.com"])])] "dnX"
        [("krbprincipalname", PVal.str "host/a.example.com@EXAMPLE.COM")]).1 "dnX").getD [])
      "objectclass").getD [] ∧
    ¬("krbprincipal" ∈ (eGetA ((dbLookupDn (host_mod ⟨fun s => s, fun _ => 0⟩
        [("dnX", [("objectclass", host_object_class), ("fqdn", ["a.example.com"])])] "dnX"
        [("krbprincipalname", PVal.str "host/a.example.com@EXAMPLE.COM")]).1 "dnX").getD [])
      "objectclass").getD []) := by
  refine ⟨by decide, by decide, by decide, by decide⟩

theorem pvalToVals_list (l : List String) : pvalToVals (PVal.list l) = l := rfl

theorem pvalToVals_str (s : String) : pvalToVals (PVal.str s) = [s] := rfl

theorem host_mod_cert_step_ok_shape (c : Collab) (db : Db) (dn : String)
    (ea p' : Payload) (h : host_mod_cert_step c db dn ea = Except.ok p') :
    p' = ea ∨ ∃ s2, p' = pSet ea "usercertificate" (PVal.str s2) := by
  unfold host_mod_cert_step at h
  split at h
  · split at h
    · split at h
      · exact absurd h (by simp)
      · rename_i old heq
        split at h
        · exact absurd h (by simp)
        · split at h
          · injection h with h2
            exact Or.inr ⟨_, h2.symm⟩
          · exact absurd h (by simp)
    · injection h with h2
      exact Or.inl h2.symm
  · injection h with h2
    exact Or.inl h2.symm

theorem host_mod_principal_step_ok_shape (db : Db) (dn : String) (ea ea2 : Payload)
    (hkey : pHasKey ea "krbprincipalname" = true)
    (h : host_mod_principal_step db dn ea = Except.ok ea2) :
    ∃ old : Entry, dbGetEntry db dn ["objectclass", "krbprincipalname"] = Except.ok old ∧
      eHasAttr old "krbprincipalname" = false ∧
      ((((eGetA old "objectclass").getD []).contains "krbprincipalaux" = true ∧ ea2 = ea) ∨
       (((eGetA old "objectclass").getD []).contains "krbprincipalaux" = false ∧
        ea2 = pSet ea "objectclass"
          (PVal.list (((eGetA old "objectclass").getD []) ++ ["krbprincipalaux"])))) := by
  unfold host_mod_principal_step at h
  split at h
  · split at h
    · exact absurd h (by simp)
    · rename_i old heq
      split at h
      · exact absurd h (by simp)
      · rename_i hnatt
        split at h
        · rename_i hcont
          injection h with h2
          exact ⟨old, heq, by simpa using hnatt, Or.inl ⟨hcont, h2.symm⟩⟩
        · rename_i hcont
          injection h with h2
          exact ⟨old, heq, by simpa using hnatt, Or.inr ⟨by simpa using hcont, h2.symm⟩⟩
  · rename_i hn
    exact absurd hkey hn

/-- C4 amended: after an add (with the krbprincipalname parameter absent
from the payload, as its no_create flag enforces) and after a modify on
an entry satisfying it, the entry's objectclass list contains the
krbprincipalaux marker exactly when krbprincipalname is set; host_add
additionally installs krbprincipal but host_mod does not, so the
biconditional holds for krbprincipalaux alone. -/
theorem c4_aux_marker_invariant (c : Collab) (dns : String → Bool) (force : Bool)
    (realm : String) (db : Db) (key dn : String) (payload : Payload) (e : Entry) :
    ((force = true ∨ dns key = true) → pHasKey payload "krbprincipalname" = false →
      krbMarkerInv (lastEntry (host_add dns force realm db key payload).1)) ∧
    (dbLookupDn db dn = some e → krbMarkerInv e →
      pHasKey payload "objectclass" = false →
      (pGetLast payload "krbprincipalname").all (fun v => !(pvalToVals v).isEmpty) = true →
      ∀ e2 : Entry, dbLookupDn (host_mod c db dn payload).1 dn = some e2 →
        krbMarkerInv e2) := by
  constructor
  · intro hforce hkrb
    have hf : (!force && !(dns key)) = false := by
      rcases hforce with h | h <;> simp [h]
    obtain ⟨h2none, hA, hB⟩ := host_add_created_attrs dns force realm db key payload hf
    cases hup : pHasKey payload "userpassword" with
    | false =>
      obtain ⟨hk, ho⟩ := hA hup
      unfold dbLastAttr at hk ho
      unfold krbMarkerInv eHasAttr
      rw [hk, ho]
      simp [host_object_class]
    | true =>
      obtain ⟨hk, ho⟩ := hB hup hkrb
      unfold dbLastAttr at hk ho
      unfold krbMarkerInv eHasAttr
      rw [hk, ho]
      decide
  · intro hlook hinv hocK hval e2 he2
    unfold krbMarkerInv at hinv
    cases hK : pHasKey payload "krbprincipalname" with
    | false =>
      have hKa : pHasKey (localityAlias payload) "krbprincipalname" = false := by
        rw [localityAlias_pHasKey _ _ (by decide) (by decide)]
        exact hK
      have hps := host_mod_principal_step_skip db dn _ hKa
      cases hcs : host_mod_cert_step c db dn (localityAlias payload) with
      | error e1 =>
        have hpre := host_mod_pre_callback_of_steps c db dn payload _ hps
        rw [hcs] at hpre
        have hm : host_mod c db dn payload = (db, some e1) := by
          unfold host_mod
          rw [hpre]
        rw [hm] at he2
        rw [hlook] at he2
        injection he2 with h2e
        unfold krbMarkerInv
        rw [← h2e]
        exact hinv
      | ok p' =>
        have hpre := host_mod_pre_callback_of_steps c db dn payload _ hps
        rw [hcs] at hpre
        have hm : host_mod c db dn payload = (dbUpdate db dn p', none) := by
          unfold host_mod
          rw [hpre]
        rw [hm] at he2
        rw [dbLookupDn_update, hlook] at he2
        simp only [Option.map_some', Option.some.injEq] at he2
        have hshape := host_mod_cert_step_ok_shape c db dn _ p' hcs
        have hbaseK : pGetLast (localityAlias payload) "krbprincipalname" = none := by
          rw [localityAlias_pGetLast _ _ (by decide) (by decide), ← pGet_none_iff]
          unfold pHasKey at hK
          cases hpg : pGet payload "krbprincipalname" with
          | none => rfl
          | some v => rw [hpg] at hK; exact absurd hK (by simp)
        have hbaseO : pGetLast (localityAlias payload) "objectclass" = none := by
          rw [localityAlias_pGetLast _ _ (by decide) (by decide), ← pGet_none_iff]
          unfold pHasKey at hocK
          cases hpg : pGet payload "objectclass" with
          | none => rfl
          | some v => rw [hpg] at hocK; exact absurd hocK (by simp)
        have hplK : pGetLast p' "krbprincipalname" = none := by
          cases hshape with
          | inl hp => rw [hp]; exact hbaseK
          | inr hp =>
            obtain ⟨s2, hp⟩ := hp
            rw [hp, pGetLast_set_other _ _ _ _ (by decide)]
            exact hbaseK
        have hplO : pGetLast p' "objectclass" = none := by
          cases hshape with
          | inl hp => rw [hp]; exact hbaseO
          | inr hp =>
            obtain ⟨s2, hp⟩ := hp
            rw [hp, pGetLast_set_other _ _ _ _ (by decide)]
            exact hbaseO
        unfold krbMarkerInv eHasAttr
        rw [← he2]
        rw [applyPayload_getA, applyPayload_getA, hplK, hplO]
        unfold eHasAttr at hinv
        exact hinv
    | true =>
      have hKa : pHasKey (localityAlias payload) "krbprincipalname" = true := by
        rw [localityAlias_pHasKey _ _ (by decide) (by decide)]
        exact hK
      cases hps : host_mod_principal_step db dn (localityAlias payload) with
      | error e1 =>
        have hpre := host_mod_pre_callback_of_error c db dn payload e1 hps
        have hm : host_mod c db dn payload = (db, some e1) := by
          unfold host_mod
          rw [hpre]
        rw [hm] at he2
        rw [hlook] at he2
        injection he2 with h2e
        unfold krbMarkerInv
        rw [← h2e]
        exact hinv
      | ok ea2 =>
        obtain ⟨old, heq, hnatt, hdisj⟩ :=
          host_mod_principal_step_ok_shape db dn _ ea2 hKa hps
        obtain ⟨e3, hlook3, holdeq⟩ := dbGetEntry_ok_lookup db dn _ old heq
        rw [hlook] at hlook3
        injection hlook3 with he3
        rw [← he3] at holdeq
        have heK : eHasAttr e "krbprincipalname" = false := by
          rw [holdeq, eHasAttr_filterAttrs _ _ _ (by decide)] at hnatt
          exact hnatt
        have holdOC : (eGetA old "objectclass").getD []
            = (eGetA e "objectclass").getD [] := by
          rw [holdeq, eGetA_filterAttrs]
          rfl
        have hauxE : (((eGetA e "objectclass").getD []).contains "krbprincipalaux")
            = false := by
          have hnot : ¬("krbprincipalaux" ∈ (eGetA e "objectclass").getD []) := by
            rw [hinv, heK]
            simp
          simpa using hnot
        cases hdisj with
        | inl hdl =>
          obtain ⟨hct, _⟩ := hdl
          rw [holdOC] at hct
          rw [hct] at hauxE
          exact absurd hauxE (by simp)
        | inr hdr =>
          obtain ⟨hcf, hea2⟩ := hdr
          rw [holdOC] at hea2
          cases hcs : host_mod_cert_step c db dn ea2 with
          | error e1 =>
            have hpre := host_mod_pre_callback_of_steps c db dn payload _ hps
            rw [hcs] at hpre
            have hm : host_mod c db dn payload = (db, some e1) := by
              unfold host_mod
              rw [hpre]
            rw [hm] at he2
            rw [hlook] at he2
            injection he2 with h2e
            unfold krbMarkerInv
            rw [← h2e]
            exact hinv
          | ok p' =>
            have hshape := host_mod_cert_step_ok_shape c db dn _ p' hcs
            have hplO : pGetLast p' "objectclass"
                = some (PVal.list (((eGetA e "objectclass").getD [])
                    ++ ["krbprincipalaux"])) := by
              cases hshape with
              | inl hp => rw [hp, hea2, pGetLast_set_self]
              | inr hp =>
                obtain ⟨s2, hp⟩ := hp
                rw [hp, pGetLast_set_other _ _ _ _ (by decide), hea2, pGetLast_set_self]
            have hplK : pGetLast p' "krbprincipalname"
                = pGetLast payload "krbprincipalname" := by
              have hbase : pGetLast ea2 "krbprincipalname"
                  = pGetLast payload "krbprincipalname" := by
                rw [hea2, pGetLast_set_other _ _ _ _ (by decide),
                  localityAlias_pGetLast _ _ (by decide) (by decide)]
              cases hshape with
              | inl hp => rw [hp]; exact hbase
              | inr hp =>
                obtain ⟨s2, hp⟩ := hp
                rw [hp, pGetLast_set_other _ _ _ _ (by decide)]
                exact hbase
            have hKsome : ∃ v, pGetLast payload "krbprincipalname" = some v ∧
                (pvalToVals v).isEmpty = false := by
              cases hpg : pGetLast payload "krbprincipalname" with
              | none =>
                exfalso
                unfold pHasKey at hK
                rw [(pGet_none_iff payload "krbprincipalname").mpr hpg] at hK
                exact absurd hK (by simp)
              | some v =>
                refine ⟨v, rfl, ?_⟩
                rw [hpg] at hval
                simpa using hval
            obtain ⟨v, hv, hvne⟩ := hKsome
            have hpre := host_mod_pre_callback_of_steps c db dn payload _ hps
            rw [hcs] at hpre
            have hm : host_mod c db dn payload = (dbUpdate db dn p', none) := by
              unfold host_mod
              rw [hpre]
            rw [hm] at he2
            rw [dbLookupDn_update, hlook] at he2
            simp only [Option.map_some', Option.some.injEq] at he2
            unfold krbMarkerInv eHasAttr
            rw [← he2]
            rw [applyPayload_getA, applyPayload_getA, hplK, hplO, hv]
            have hvne2 : pvalToVals v ≠ [] := by simpa using hvne
            simp [pvalToVals_list, hvne2, hvne, List.mem_append]

/-- C4 witness: a concrete modify that sets the principal on an entry
without one preserves the krbprincipalaux invariant. -/
theorem c4_witness :
    krbMarkerInv [("fqdn", ["a.example.com"]),
      ("krbprincipalname", ["host/a.example.com@EXAMPLE.COM"]),
      ("objectclass", ["ipaobject", "nshost", "ipahost", "pkiuser", "ipaservice",
        "krbprincipalaux"])] :=
  (c4_aux_marker_invariant ⟨fun s => s, fun _ => 0⟩ (fun _ => true) true "EXAMPLE.COM"
      [("dnX", [("objectclass", host_object_class), ("fqdn", ["a.example.com"])])]
      "x" "dnX" [("krbprincipalname", PVal.str "host/a.example.com@EXAMPLE.COM")]
      [("objectclass", host_object_class), ("fqdn", ["a.example.com"])]).2
    (by decide) (by unfold krbMarkerInv; decide) (by decide) (by decide)
    [("fqdn", ["a.example.com"]),
      ("krbprincipalname", ["host/a.example.com@EXAMPLE.COM"]),
      ("objectclass", ["ipaobject", "nshost", "ipahost", "pkiuser", "ipaservice",
        "krbprincipalaux"])] (by decide)

/-! The delete cascade (host_del.pre_callback) and its collaborators. -/

/-- Modelled from the spec: split_principal of the service plugin parses
a principal into (service-type, hostname, realm); the source requires
exactly one slash and exactly one at sign and raises a malformed
principal error otherwise (none here). -/
def split_principal (p : String) : Option (String × String × String) :=
  match splitOnSep '/' p.toList with
  | [sv, rest] =>
    match splitOnSep '@' rest with
    | [hn, rlm] => some (String.mk sv, String.mk hn, String.mk rlm)
    | _ => none
  | _ => none

theorem splitOnSep_ne_nil (c : Char) (l : List Char) : splitOnSep c l ≠ [] := by
  cases l with
  | nil => simp [splitOnSep]
  | cons x xs =>
    simp only [splitOnSep]
    cases h : splitOnSep c xs with
    | nil => simp
    | cons hh tt => cases hb : x == c <;> simp [hb]

theorem splitOnSep_singleton (c : Char) (l m : List Char)
    (h : splitOnSep c l = [m]) : l = m := by
  induction l generalizing m with
  | nil =>
    simp only [splitOnSep] at h
    injection h
  | cons x xs ih =>
    simp only [splitOnSep] at h
    cases hs : splitOnSep c xs with
    | nil => exact absurd hs (splitOnSep_ne_nil c xs)
    | cons hh tt =>
      rw [hs] at h
      cases hb : x == c with
      | true => rw [hb] at h; simp at h
      | false =>
        rw [hb] at h
        simp only [if_neg, Bool.false_eq_true, if_false] at h
        injection h with h1 h2
        have hxs : xs = hh := ih hh (by rw [hs, h2])
        rw [← h1, hxs]

theorem splitOnSep_pair (c : Char) (l a b : List Char)
    (h : splitOnSep c l = [a, b]) : l = a ++ c :: b := by
  induction l generalizing a with
  | nil => simp [splitOnSep] at h
  | cons x xs ih =>
    simp only [splitOnSep] at h
    cases hs : splitOnSep c xs with
    | nil => exact absurd hs (splitOnSep_ne_nil c xs)
    | cons hh tt =>
      rw [hs] at h
      cases hb : x == c with
      | true =>
        rw [hb] at h
        simp only [if_pos] at h
        injection h with h1 h23
        injection h23 with h2 h3
        have hxs : xs = b := splitOnSep_singleton c xs b (by rw [hs, h3, h2])
        have hc : x = c := by simpa using hb
        rw [← h1, hc, hxs]
        rfl
      | false =>
        rw [hb] at h
        simp only [Bool.false_eq_true, if_false] at h
        injection h with h1 h2
        have hxs : xs = hh ++ c :: b := ih hh (by rw [hs, h2])
        rw [← h1, hxs]
        rfl

theorem split_principal_parts (p s h r : String)
    (hsp : split_principal p = some (s, h, r)) :
    p.toList = s.toList ++ '/' :: (h.toList ++ '@' :: r.toList) := by
  unfold split_principal at hsp
  split at hsp
  · rename_i sv rest hq
    split at hsp
    · rename_i hn rlm hq2
      injection hsp with h1
      injection h1 with hs1 h23
      injection h23 with hh1 hr1
      rw [← hs1, ← hh1, ← hr1]
      have e1 : p.toList = sv ++ '/' :: rest := splitOnSep_pair '/' p.toList sv rest hq
      have e2 : rest = hn ++ '@' :: rlm := splitOnSep_pair '@' rest hn rlm hq2
      rw [e1, e2]
      rfl
    · exact absurd hsp (by simp)
  · exact absurd hsp (by simp)

theorem strContains_of_hostname (p s h r : String)
    (hsp : split_principal p = some (s, h, r)) :
    strContains p h = true := by
  unfold strContains
  rw [split_principal_parts p s h r hsp]
  have hassoc : s.toList ++ '/' :: (h.toList ++ '@' :: r.toList)
      = (s.toList ++ ['/']) ++ (h.toList ++ ('@' :: r.toList)) := by
    simp
  rw [hassoc]
  exact containsSeq_append_mid h.toList (s.toList ++ ['/']) ('@' :: r.toList)

/-! C6: the paginated cascade loop over a trace of backend responses. -/

/-- One page returned by the dependent-service search: the entries
(their principals) and the truncated flag. -/
structure Page where
  result : List String
  truncated : Bool
deriving DecidableEq

/-- One backend response of the cascade loop; none models the NotFound
the search raises when nothing matches. -/
abbrev FindOutcome := Option Page

/-- The loop stopping condition named by the claim: the search reported
no results or the page's truncated flag is clear. -/
def cascadeStops : FindOutcome → Bool
  | none => true
  | some pg => !pg.truncated

/-- A page whose processing raises before the truncated flag is
re-checked (a malformed principal aborts the for body). -/
def pageAborts (pg : Page) : Bool :=
  pg.result.any (fun p => (split_principal p).isNone)

/-- The while truncated loop of host_del.pre_callback, consuming one
backend response per iteration: NotFound breaks, a malformed principal
raises, otherwise the page is processed and the loop continues exactly
when the response was truncated.  Returns how many responses were
consumed, or none when the trace is exhausted while still truncated
(service deletions are collaborator calls assumed to succeed). -/
def cascadeConsume : List FindOutcome → Option Nat
  | [] => none
  | r :: rs =>
    match r with
    | none => some 1
    | some pg =>
      if pageAborts pg then some 1
      else if pg.truncated then (cascadeConsume rs).map (fun n => n + 1) else some 1

/-- C6: over every trace of backend responses whose pages hold only well
formed principals, the cascade loop halts exactly at the first response
with a clear truncated flag or a no-results signal: it consumes the
trace up to and including that response, and it halts within the trace
precisely when such a response occurs. -/
theorem c6_cascade_termination (rs : List FindOutcome)
    (hwf : rs.all (fun r =>
        match r with
        | some pg => pg.result.all (fun p => (split_principal p).isSome)
        | none => true) = true) :
    cascadeConsume rs =
      (if rs.findIdx cascadeStops < rs.length
       then some (rs.findIdx cascadeStops + 1) else none) ∧
    ((cascadeConsume rs).isSome ↔ ∃ r ∈ rs, cascadeStops r = true) := by
  induction rs with
  | nil => simp [cascadeConsume]
  | cons r rs ih =>
    rw [List.all_cons] at hwf
    have hr := (Bool.and_eq_true_iff.mp hwf).1
    have hrs := (Bool.and_eq_true_iff.mp hwf).2
    obtain ⟨ih1, ih2⟩ := ih hrs
    cases r with
    | none =>
      constructor
      · simp [cascadeConsume, List.findIdx_cons, cascadeStops]
      · simp [cascadeConsume, cascadeStops]
    | some pg =>
      have habort : pageAborts pg = false := by
        unfold pageAborts
        simp only [List.any_eq_true, Bool.not_eq_true] at *
        simp only [List.all_eq_true] at hr
        by_cases hex : ∃ x ∈ pg.result, (split_principal x).isNone = true
        · obtain ⟨x, hx, hxn⟩ := hex
          have := hr x hx
          rw [Option.isNone_iff_eq_none] at hxn
          rw [hxn] at this
          exact absurd this (by simp)
        · simp only [List.any_eq_false]
          intro x hx
          have := hr x hx
          simp [Option.isNone_iff_eq_none]
          intro hc
          rw [hc] at this
          exact absurd this (by simp)
      cases ht : pg.truncated with
      | false =>
        have hstop : cascadeStops (some pg) = true := by simp [cascadeStops, ht]
        constructor
        · simp [cascadeConsume, habort, ht, List.findIdx_cons, hstop]
        · simp [cascadeConsume, habort, ht, hstop]
      | true =>
        have hstop : cascadeStops (some pg) = false := by simp [cascadeStops, ht]
        have hcc : cascadeConsume (some pg :: rs)
            = (cascadeConsume rs).map (fun n => n + 1) := by
          simp [cascadeConsume, habort, ht]
        constructor
        · rw [hcc, ih1, List.findIdx_cons, hstop]
          by_cases hlt : rs.findIdx cascadeStops < rs.length
          · simp [hlt, Nat.succ_lt_succ hlt]
          · rw [if_neg hlt]
            rw [if_neg (show ¬((bif false then 0
                else List.findIdx cascadeStops rs + 1) < (some pg :: rs).length) from by
              simp only [Bool.cond_false, List.length_cons]
              intro hcon
              exact hlt (Nat.lt_of_succ_lt_succ hcon))]
            rfl
        · rw [hcc]
          have hms : (Option.map (fun n => n + 1) (cascadeConsume rs)).isSome
              = (cascadeConsume rs).isSome := by
            cases cascadeConsume rs <;> rfl
          rw [hms, ih2]
          simp [hstop]

/-- C6 witness: a truncated page followed by a final page halts the loop
after consuming exactly two responses. -/
theorem c6_witness :
    cascadeConsume [some (Page.mk ["HTTP/h.example.com@EXAMPLE.COM"] true),
        some (Page.mk [] false)] =
      (if ([some (Page.mk ["HTTP/h.example.com@EXAMPLE.COM"] true),
          some (Page.mk [] false)]).findIdx cascadeStops <
            ([some (Page.mk ["HTTP/h.example.com@EXAMPLE.COM"] true),
              some (Page.mk [] false)]).length
       then some (([some (Page.mk ["HTTP/h.example.com@EXAMPLE.COM"] true),
          some (Page.mk [] false)]).findIdx cascadeStops + 1) else none) :=
  (c6_cascade_termination
      [some (Page.mk ["HTTP/h.example.com@EXAMPLE.COM"] true),
        some (Page.mk [] false)] (by decide)).1

/-! C5: the delete pipeline over an explicit state of services and
hosts. -/

/-- Python str.lower as used on the parsed hostname. -/
def lowerStr (s : String) : String :=
  String.mk (s.toList.map Char.toLower)

/-- The backend state a delete operates on: the dependent service
entries (their principals) and the host entries (their fqdns). -/
structure DelState where
  services : List String
  hosts : List String
deriving DecidableEq

/-- The backend mutations a delete performs, in order. -/
inductive DelOp where
  | delService (principal : String)
  | delHost (key : String)
deriving DecidableEq

/-- Modelled from the spec: the dependent-service search collaborator
(service_find scoped to this host).  It matches the term as a substring
of the stored principals, returns one page of at most pageSize entries
with the truncated flag, and raises NotFound when nothing matches. -/
def service_find (pageSize : Nat) (st : DelState) (term : String) :
    Except Err (List String × Bool) :=
  if (st.services.filter (fun p => strContains p term)).isEmpty then
    Except.error Err.notFound
  else
    Except.ok ((st.services.filter (fun p => strContains p term)).take pageSize,
      decide (pageSize < (st.services.filter (fun p => strContains p term)).length))

/-- Modelled from the spec: the service_del collaborator removes the
entry with that principal. -/
def service_del (st : DelState) (p : String) : DelState :=
  { services := st.services.filter (fun q => !(q == p)), hosts := st.hosts }

/-- The deletion condition of the loop body: the parsed hostname,
lowercased, equals the target fqdn (hostname.lower() == fqdn in the
source). -/
def isDelMatch (fqdn q : String) : Bool :=
  match split_principal q with
  | some (_, hostname, _) => lowerStr hostname == fqdn
  | none => false

/-- The for body of host_del.pre_callback over one returned page: each
principal is parsed (a malformed one raises) and the matching services
are deleted; the source destructures the principal once and compares
hostname.lower() with the fqdn, which isDelMatch reproduces. -/
def cascadeBody (fqdn : String) : List String → DelState → List DelOp →
    Except Err (DelState × List DelOp)
  | [], st, ops => Except.ok (st, ops)
  | p :: rest, st, ops =>
    if (split_principal p).isNone then Except.error Err.malformed
    else if isDelMatch fqdn p then
      cascadeBody fqdn rest (service_del st p) (ops ++ [DelOp.delService p])
    else cascadeBody fqdn rest st ops

/-- The while truncated loop of host_del.pre_callback: search, break on
NotFound, process the page, continue while truncated.  Fuel bounds the
iterations; running out models a loop that has not finished. -/
def host_del_loop (pageSize : Nat) (fqdn : String) :
    Nat → DelState → List DelOp → Option (Except Err (DelState × List DelOp))
  | 0, _, _ => none
  | Nat.succ fuel, st, ops =>
    match service_find pageSize st fqdn with
    | Except.error _ => some (Except.ok (st, ops))
    | Except.ok (page, truncated) =>
      match cascadeBody fqdn page st ops with
      | Except.error e => some (Except.error e)
      | Except.ok (st2, ops2) =>
        if truncated then host_del_loop pageSize fqdn fuel st2 ops2
        else some (Except.ok (st2, ops2))

/-- The delete pipeline around host_del.pre_callback: a key that fails
the fqdn check is resolved to a stored host by its short name (the
host_show lookup through get_dn, modelled from the spec), the service
cascade runs, and only then does the pipeline delete the host entry
itself (LDAPDelete, modelled from the spec section 4.4). -/
def host_del_finish (pageSize fuel : Nat) (st : DelState) (fqdn : String) :
    Option (Except Err (DelState × List DelOp)) :=
  match host_del_loop pageSize fqdn fuel st [] with
  | none => none
  | some (Except.error e) => some (Except.error e)
  | some (Except.ok (st2, ops)) =>
    some (Except.ok
      ({ services := st2.services,
         hosts := st2.hosts.filter (fun h2 => !(h2 == fqdn)) },
        ops ++ [DelOp.delHost fqdn]))

def host_del (pageSize fuel : Nat) (st : DelState) (key : String) :
    Option (Except Err (DelState × List DelOp)) :=
  match (if (validate_host key).isSome
         then st.hosts.find? (fun h2 => shortNameOf h2 == key)
         else some key) with
  | none => some (Except.error Err.notFound)
  | some fqdn => host_del_finish pageSize fuel st fqdn

theorem service_find_error_isEmpty (pageSize : Nat) (st : DelState) (term : String)
    (e1 : Err) (h : service_find pageSize st term = Except.error e1) :
    (st.services.filter (fun p => strContains p term)).isEmpty = true := by
  unfold service_find at h
  split at h
  · rename_i hc
    exact hc
  · exact absurd h (by simp)

theorem service_find_ok_shape (pageSize : Nat) (st : DelState) (term : String)
    (page : List String) (truncated : Bool)
    (h : service_find pageSize st term = Except.ok (page, truncated)) :
    page = (st.services.filter (fun p => strContains p term)).take pageSize ∧
    truncated = decide (pageSize <
      (st.services.filter (fun p => strContains p term)).length) := by
  unfold service_find at h
  split at h
  · exact absurd h (by simp)
  · injection h with h2
    injection h2 with ha hb
    exact ⟨ha.symm, hb.symm⟩

theorem cascadeBody_services (fqdn : String) (page : List String) :
    ∀ (st : DelState) (ops : List DelOp) (st2 : DelState) (ops2 : List DelOp),
    cascadeBody fqdn page st ops = Except.ok (st2, ops2) →
    (∀ q, q ∈ st2.services ↔
      (q ∈ st.services ∧ ¬(q ∈ page ∧ isDelMatch fqdn q = true))) ∧
    st2.hosts = st.hosts ∧
    (∃ tail, ops2 = ops ++ tail ∧ ∀ op ∈ tail, ∃ q, op = DelOp.delService q) := by
  induction page with
  | nil =>
    intro st ops st2 ops2 h
    injection h with hpair
    injection hpair with ha hb
    refine ⟨fun q => by rw [← ha]; simp, by rw [← ha], [], by rw [← hb]; simp, by simp⟩
  | cons p rest ih =>
    intro st ops st2 ops2 h
    simp only [cascadeBody] at h
    split at h
    · exact absurd h (by simp)
    · split at h
      · rename_i hnn hDp
        obtain ⟨hmem, hhosts, tail, htail, hsvc⟩ :=
          ih (service_del st p) (ops ++ [DelOp.delService p]) st2 ops2 h
        refine ⟨?_, hhosts, [DelOp.delService p] ++ tail, ?_, ?_⟩
        · intro q
          rw [hmem q]
          have hsd : q ∈ (service_del st p).services ↔ (q ∈ st.services ∧ ¬(q = p)) := by
            unfold service_del
            simp [List.mem_filter]
          rw [hsd]
          by_cases hq : q = p
          · subst hq
            simp [hDp]
          · simp only [List.mem_cons, hq, false_or]
            tauto
        · rw [htail]
          simp
        · intro op hop
          rcases List.mem_append.mp hop with hl | hr
          · exact ⟨p, by simpa using hl⟩
          · exact hsvc op hr
      · rename_i hnn hDp
        have hDp2 : isDelMatch fqdn p = false := by simpa using hDp
        obtain ⟨hmem, hhosts, tail, htail, hsvc⟩ := ih st ops st2 ops2 h
        refine ⟨?_, hhosts, tail, htail, hsvc⟩
        intro q
        rw [hmem q]
        by_cases hq : q = p
        · subst hq
          simp [hDp2]
        · simp only [List.mem_cons, hq, false_or]

theorem host_del_loop_spec (pageSize : Nat) (fqdn : String) :
    ∀ (fuel : Nat) (st : DelState) (ops : List DelOp) (st2 : DelState) (ops2 : List DelOp),
    host_del_loop pageSize fqdn fuel st ops = some (Except.ok (st2, ops2)) →
    (∀ q ∈ st.services, strContains q fqdn = true → isDelMatch fqdn q = true →
      q ∉ st2.services) ∧
    (∀ q ∈ st.services, isDelMatch fqdn q = false → q ∈ st2.services) ∧
    (∀ q ∈ st2.services, q ∈ st.services) ∧
    st2.hosts = st.hosts ∧
    (∃ tail, ops2 = ops ++ tail ∧ ∀ op ∈ tail, ∃ q, op = DelOp.delService q) := by
  intro fuel
  induction fuel with
  | zero =>
    intro st ops st2 ops2 h
    exact absurd h (by simp [host_del_loop])
  | succ fuel ih =>
    intro st ops st2 ops2 h
    simp only [host_del_loop] at h
    cases hsf : service_find pageSize st fqdn with
    | error e1 =>
      rw [hsf] at h
      have h2 : some (Except.ok (st, ops)) = some (Except.ok (st2, ops2)) := h
      simp only [Option.some.injEq, Except.ok.injEq, Prod.mk.injEq] at h2
      obtain ⟨hst, hops⟩ := h2
      have hempty := service_find_error_isEmpty pageSize st fqdn e1 hsf
      have hfe : st.services.filter (fun p => strContains p fqdn) = [] := by
        simpa using hempty
      refine ⟨?_, ?_, ?_, ?_, ⟨[], by rw [← hops]; simp, by simp⟩⟩
      · intro q hq hc _
        exfalso
        have hqf : q ∈ st.services.filter (fun p => strContains p fqdn) :=
          List.mem_filter.mpr ⟨hq, hc⟩
        rw [hfe] at hqf
        exact absurd hqf (by simp)
      · intro q hq _
        rw [← hst]
        exact hq
      · intro q hq
        rw [← hst] at hq
        exact hq
      · rw [← hst]
    | ok pr =>
      obtain ⟨page, truncated⟩ := pr
      rw [hsf] at h
      obtain ⟨hpage, htrunc⟩ := service_find_ok_shape pageSize st fqdn page truncated hsf
      cases hcb : cascadeBody fqdn page st ops with
      | error e2 =>
        have h2 : (match cascadeBody fqdn page st ops with
            | Except.error e => some (Except.error e)
            | Except.ok (st3, ops3) =>
              if truncated then host_del_loop pageSize fqdn fuel st3 ops3
              else some (Except.ok (st3, ops3))) = some (Except.ok (st2, ops2)) := h
        rw [hcb] at h2
        exact absurd h2 (by simp)
      | ok pr2 =>
        obtain ⟨st3, ops3⟩ := pr2
        have h2 : (match cascadeBody fqdn page st ops with
            | Except.error e => some (Except.error e)
            | Except.ok (st3, ops3) =>
              if truncated then host_del_loop pageSize fqdn fuel st3 ops3
              else some (Except.ok (st3, ops3))) = some (Except.ok (st2, ops2)) := h
        rw [hcb] at h2
        have h3 : (if truncated then host_del_loop pageSize fqdn fuel st3 ops3
            else some (Except.ok (st3, ops3))) = some (Except.ok (st2, ops2)) := h2
        obtain ⟨bmem, bhosts, btail, bops, bsvc⟩ :=
          cascadeBody_services fqdn page st ops st3 ops3 hcb
        cases htv : truncated with
        | true =>
          rw [htv] at h3
          have h4 : host_del_loop pageSize fqdn fuel st3 ops3
              = some (Except.ok (st2, ops2)) := h3
          obtain ⟨i1, i2, i3, i4, itail, iops, isvc⟩ := ih st3 ops3 st2 ops2 h4
          refine ⟨?_, ?_, ?_, ?_, ?_⟩
          · intro q hq hc hd
            by_cases hqp : q ∈ page
            · intro hin2
              exact ((bmem q).mp (i3 q hin2)).2 ⟨hqp, hd⟩
            · exact i1 q ((bmem q).mpr ⟨hq, fun hcon => hqp hcon.1⟩) hc hd
          · intro q hq hd
            exact i2 q ((bmem q).mpr ⟨hq, fun hcon => by
              rw [hd] at hcon
              exact absurd hcon.2 (by simp)⟩) hd
          · intro q hq
            exact ((bmem q).mp (i3 q hq)).1
          · rw [i4, bhosts]
          · exact ⟨btail ++ itail, by rw [iops, bops, List.append_assoc], fun op hop => by
              rcases List.mem_append.mp hop with hl | hr
              · exact bsvc op hl
              · exact isvc op hr⟩
        | false =>
          rw [htv] at h3
          have h4 : some (Except.ok (st3, ops3)) = some (Except.ok (st2, ops2)) := h3
          simp only [Option.some.injEq, Except.ok.injEq, Prod.mk.injEq] at h4
          obtain ⟨hst, hops⟩ := h4
          have hple : (st.services.filter (fun p => strContains p fqdn)).length
              ≤ pageSize := by
            rw [htv] at htrunc
            have := htrunc.symm
            simp only [decide_eq_false_iff_not, Nat.not_lt] at this
            exact this
          have hpageall : page = st.services.filter (fun p => strContains p fqdn) := by
            rw [hpage]
            exact List.take_of_length_le hple
          refine ⟨?_, ?_, ?_, ?_, ?_⟩
          · intro q hq hc hd
            rw [← hst]
            have hqp : q ∈ page := by
              rw [hpageall]
              exact List.mem_filter.mpr ⟨hq, hc⟩
            intro hin
            exact ((bmem q).mp hin).2 ⟨hqp, hd⟩
          · intro q hq hd
            rw [← hst]
            exact (bmem q).mpr ⟨hq, fun hcon => by
              rw [hd] at hcon
              exact absurd hcon.2 (by simp)⟩
          · intro q hq
            rw [← hst] at hq
            exact ((bmem q).mp hq).1
          · rw [← hst, bhosts]
          · exact ⟨btail, by rw [← hops, bops], bsvc⟩

/-- C5: when a delete of a host completes, every dependent service whose
principal parses to the host fqdn is deleted, every service with a
different hostname is untouched, the host entry itself is gone, and the
backend mutation sequence deletes the host strictly after the whole
service cascade.  Hostnames stored in principals are lowercase (the
service plugin normalizes them), which the hypothesis records. -/
theorem c5_delete_cascade (pageSize fuel : Nat) (st : DelState) (key : String)
    (st2 : DelState) (ops : List DelOp)
    (hdot : strContains key "." = true)
    (hlower : st.services.all (fun p =>
        match split_principal p with
        | some (_, h2, _) => lowerStr h2 == h2
        | none => true) = true)
    (hrun : host_del pageSize fuel st key = some (Except.ok (st2, ops))) :
    (∀ p ∈ st.services, ∀ sv h2 r2, split_principal p = some (sv, h2, r2) →
      h2 = key → p ∉ st2.services) ∧
    (∀ p ∈ st.services, (∀ sv h2 r2, split_principal p = some (sv, h2, r2) → h2 ≠ key) →
      p ∈ st2.services) ∧
    key ∉ st2.hosts ∧
    ops.getLast? = some (DelOp.delHost key) ∧
    (∀ op ∈ ops.dropLast, ∃ q, op = DelOp.delService q) := by
  have hv : (validate_host key).isSome = false := by
    unfold validate_host
    rw [if_pos hdot]
    rfl
  unfold host_del at hrun
  rw [if_neg (by rw [hv]; simp)] at hrun
  have hrun1 : host_del_finish pageSize fuel st key = some (Except.ok (st2, ops)) := hrun
  unfold host_del_finish at hrun1
  cases hloop : host_del_loop pageSize key fuel st [] with
  | none =>
    rw [hloop] at hrun1
    have hrun2 : (none : Option (Except Err (DelState × List DelOp)))
        = some (Except.ok (st2, ops)) := hrun1
    exact absurd hrun2 (by simp)
  | some exc =>
    cases exc with
    | error e1 =>
      rw [hloop] at hrun1
      have hrun2 : some (Except.error e1) = some (Except.ok (st2, ops)) := hrun1
      exact absurd hrun2 (by simp)
    | ok pr =>
      obtain ⟨st3, ops3⟩ := pr
      rw [hloop] at hrun1
      have hrun2 : some (Except.ok
          (({ services := st3.services,
              hosts := st3.hosts.filter (fun h2 => !(h2 == key)) } : DelState),
            ops3 ++ [DelOp.delHost key]))
          = some (Except.ok (st2, ops)) := hrun1
      simp only [Option.some.injEq, Except.ok.injEq, Prod.mk.injEq] at hrun2
      obtain ⟨hst2, hops⟩ := hrun2
      obtain ⟨L1, L2, L3, L4, tail, htail, hsvc⟩ :=
        host_del_loop_spec pageSize key fuel st [] st3 ops3 hloop
      have hst2s : st2.services = st3.services := by rw [← hst2]
      have hst2h : st2.hosts = st3.hosts.filter (fun h2 => !(h2 == key)) := by
        rw [← hst2]
      simp only [List.all_eq_true] at hlower
      refine ⟨?_, ?_, ?_, ?_, ?_⟩
      · intro p hp sv h2 r2 hsp hk
        subst hk
        have hlow : lowerStr h2 = h2 := by
          have hx := hlower p hp
          rw [hsp] at hx
          have hx2 : (lowerStr h2 == h2) = true := hx
          exact eq_of_beq hx2
        have hd : isDelMatch h2 p = true := by
          unfold isDelMatch
          rw [hsp]
          show (lowerStr h2 == h2) = true
          rw [hlow]
          simp
        have hc : strContains p h2 = true := strContains_of_hostname p sv h2 r2 hsp
        rw [hst2s]
        exact L1 p hp hc hd
      · intro p hp hne
        have hd : isDelMatch key p = false := by
          unfold isDelMatch
          cases hsp : split_principal p with
          | none => rfl
          | some trip =>
            obtain ⟨sv, h2, r2⟩ := trip
            show (lowerStr h2 == key) = false
            have hlow : lowerStr h2 = h2 := by
              have hx := hlower p hp
              rw [hsp] at hx
              have hx2 : (lowerStr h2 == h2) = true := hx
              exact eq_of_beq hx2
            rw [hlow]
            have hne2 := hne sv h2 r2 hsp
            simp [hne2]
        rw [hst2s]
        exact L2 p hp hd
      · rw [hst2h]
        intro hmem
        have hpass := (List.mem_filter.mp hmem).2
        simp at hpass
      · rw [← hops]
        exact getLast_append_single ops3 (DelOp.delHost key)
      · rw [← hops]
        rw [show (ops3 ++ [DelOp.delHost key]).dropLast = ops3 from by simp]
        intro op hop
        have hto : ops3 = tail := by simpa using htail
        rw [hto] at hop
        exact hsvc op hop

/-- C5 witness: deleting h.example.com with page size 1 removes both of
its services over two pages, leaves the unrelated service, removes the
host, and the host deletion is the last mutation. -/
theorem c5_witness :
    host_del 1 3 (DelState.mk ["HTTP/h.example.com@EXAMPLE.COM",
        "ldap/h.example.com@EXAMPLE.COM", "HTTP/other.example.com@EXAMPLE.COM"]
        ["h.example.com"]) "h.example.com"
      = some (Except.ok (DelState.mk ["HTTP/other.example.com@EXAMPLE.COM"] [],
          [DelOp.delService "HTTP/h.example.com@EXAMPLE.COM",
           DelOp.delService "ldap/h.example.com@EXAMPLE.COM",
           DelOp.delHost "h.example.com"])) ∧
    "HTTP/h.example.com@EXAMPLE.COM" ∉
      (DelState.mk ["HTTP/other.example.com@EXAMPLE.COM"] ([] : List String)).services ∧
    "HTTP/other.example.com@EXAMPLE.COM" ∈
      (DelState.mk ["HTTP/other.example.com@EXAMPLE.COM"] ([] : List String)).services ∧
    "h.example.com" ∉
      (DelState.mk ["HTTP/other.example.com@EXAMPLE.COM"] ([] : List String)).hosts ∧
    ([DelOp.delService "HTTP/h.example.com@EXAMPLE.COM",
      DelOp.delService "ldap/h.example.com@EXAMPLE.COM",
      DelOp.delHost "h.example.com"]).getLast? = some (DelOp.delHost "h.example.com") := by
  obtain ⟨w1, w2, w3, w4, w5⟩ := c5_delete_cascade 1 3
      (DelState.mk ["HTTP/h.example.com@EXAMPLE.COM",
        "ldap/h.example.com@EXAMPLE.COM", "HTTP/other.example.com@EXAMPLE.COM"]
        ["h.example.com"]) "h.example.com"
      (DelState.mk ["HTTP/other.example.com@EXAMPLE.COM"] [])
      [DelOp.delService "HTTP/h.example.com@EXAMPLE.COM",
       DelOp.delService "ldap/h.example.com@EXAMPLE.COM",
       DelOp.delHost "h.example.com"]
      (by decide) (by decide) (by rfl)
  refine ⟨by rfl, ?_, ?_, w3, w4⟩
  · exact w1 "HTTP/h.example.com@EXAMPLE.COM" (by decide)
      "HTTP" "h.example.com" "EXAMPLE.COM" (by rfl) rfl
  · refine w2 "HTTP/other.example.com@EXAMPLE.COM" (by decide) ?_
    intro sv h2 r2 hsp
    have h0 : split_principal "HTTP/other.example.com@EXAMPLE.COM"
        = some ("HTTP", "other.example.com", "EXAMPLE.COM") := by rfl
    rw [h0] at hsp
    injection hsp with h1
    injection h1 with ha hbc
    injection hbc with hb hc
    rw [← hb]
    decide

/-! C9: host_find.pre_callback, the locality alias on search. -/

/-- Python str.replace over character lists: every non-overlapping
occurrence, scanned left to right, is replaced.  Fuel bounds the scan
(one character or one match is consumed per step); an empty pattern is
left untouched (the call site always passes a non-empty pattern). -/
def replaceAux (pat rep : List Char) : Nat → List Char → List Char
  | _, [] => []
  | 0, l => l
  | Nat.succ fuel, x :: xs =>
    if pat.isPrefixOf (x :: xs) && !pat.isEmpty then
      rep ++ replaceAux pat rep fuel (List.drop pat.length (x :: xs))
    else x :: replaceAux pat rep fuel xs

/-- Python str.replace on strings. -/
def strReplace (s pat rep : String) : String :=
  String.mk (replaceAux pat.toList rep.toList s.toList.length s.toList)

/-- host_find.pre_callback from the source: when the requested attribute
list holds the public alias name, its first occurrence is removed
(Python list.remove) and the backend name appended; the filter text has
every occurrence of the alias replaced. -/
def host_find_pre_callback (filter0 : String) (attrs_list : List String) :
    String × List String :=
  if attrs_list.contains "locality" then
    (strReplace filter0 "locality" "l", (attrs_list.erase "locality") ++ ["l"])
  else
    (strReplace filter0 "locality" "l", attrs_list)

/-- The claim-side rewrite: every occurrence of the alias in the
attribute list replaced by the backend name. -/
def specAliasAttrs (attrs : List String) : List String :=
  attrs.map (fun a => if a = "locality" then "l" else a)

/-- Modelled from the spec: the mapper toPublicName applied to result
entries (section 4.1); the front end re-exposes the backend attribute l
under the public name locality. -/
def exposeEntry (e : Entry) : Entry :=
  e.map (fun kv => (if kv.1 = "l" then "locality" else kv.1, kv.2))

/-- C9 counterexample: with the alias appearing twice in the requested
attribute list, only the first occurrence is rewritten, so the list sent
to the backend still holds the public name and is not a rearrangement of
the fully aliased list; the search is not performed as if the backend
name had been used. -/
theorem c9_counterexample :
    "locality" ∈ (host_find_pre_callback "(fqdn=*)" ["locality", "locality"]).2 ∧
    ¬ List.Perm (host_find_pre_callback "(fqdn=*)" ["locality", "locality"]).2
        (specAliasAttrs ["locality", "locality"]) := by
  constructor
  · decide
  · intro hp
    have hm : "locality" ∈ (host_find_pre_callback "(fqdn=*)" ["locality", "locality"]).2 ↔
        "locality" ∈ specAliasAttrs ["locality", "locality"] := hp.mem_iff
    exact absurd (hm.mp (by decide)) (by decide)

theorem map_alias_id (s : List String) (h : ¬("locality" ∈ s)) :
    s.map (fun a => if a = "locality" then "l" else a) = s := by
  induction s with
  | nil => rfl
  | cons x xs ih =>
    simp only [List.map_cons]
    rw [if_neg (fun hx => h (by rw [hx]; exact List.mem_cons_self _ _)),
      ih (fun hm => h (List.mem_cons_of_mem x hm))]

theorem exposeEntry_getA_l (e : Entry) : eGetA (exposeEntry e) "l" = none := by
  have hf : (exposeEntry e).find? (fun kv => kv.1 == "l") = none := by
    rw [List.find?_eq_none]
    intro x hx
    unfold exposeEntry at hx
    obtain ⟨kv, hkv, hfx⟩ := List.mem_map.mp hx
    by_cases hk : kv.1 = "l"
    · rw [← hfx]
      simp [hk]
    · rw [← hfx]
      simp [hk]
  unfold eGetA
  rw [hf]
  rfl

theorem exposeEntry_getA_locality (e : Entry) (he : eGetA e "locality" = none) :
    eGetA (exposeEntry e) "locality" = eGetA e "l" := by
  induction e with
  | nil => rfl
  | cons kv rest ih =>
    unfold eGetA at he
    rw [List.find?_cons] at he
    cases hk : (kv.1 == "locality") with
    | true => rw [hk] at he; simp at he
    | false =>
      rw [hk] at he
      have he2 : eGetA rest "locality" = none := he
      unfold exposeEntry eGetA
      simp only [List.map_cons]
      rw [List.find?_cons, List.find?_cons]
      by_cases hl : kv.1 = "l"
      · rw [if_pos hl]
        simp [hl]
      · rw [if_neg hl]
        have hpred2 : (kv.1 == "l") = false := by simp [hl]
        rw [hk, hpred2]
        have := ih he2
        unfold exposeEntry eGetA at this
        exact this

/-- C9 amended: provided the public alias occurs at most once in the
requested attribute list, the search is performed as if the backend name
had been used: the filter sent to the backend has every occurrence of
locality replaced by l, the attribute list sent is a rearrangement of
the list with locality replaced by l, and (modelled from the spec) each
returned entry re-exposes the backend attribute under locality and not
under l. -/
theorem c9_alias_rewrite (f : String) (attrs : List String) :
    attrs.count "locality" ≤ 1 →
    ((host_find_pre_callback f attrs).1 = strReplace f "locality" "l" ∧
     List.Perm (host_find_pre_callback f attrs).2 (specAliasAttrs attrs) ∧
     (∀ e : Entry, eGetA e "locality" = none →
       eGetA (exposeEntry e) "locality" = eGetA e "l" ∧
       eGetA (exposeEntry e) "l" = none)) := by
  intro hcount
  refine ⟨?_, ?_, fun e he => ⟨exposeEntry_getA_locality e he, exposeEntry_getA_l e⟩⟩
  · unfold host_find_pre_callback
    split <;> rfl
  · unfold host_find_pre_callback
    by_cases hc : attrs.contains "locality" = true
    · rw [if_pos hc]
      have hmem : "locality" ∈ attrs := by simpa using hc
      obtain ⟨s, t, hst⟩ := List.append_of_mem hmem
      subst hst
      have hcnt : s.count "locality" = 0 ∧ t.count "locality" = 0 := by
        simp only [List.count_append, List.count_cons] at hcount
        simp at hcount
        omega
      have hs0 : ¬("locality" ∈ s) := by
        intro hmm
        have := List.count_pos_iff.mpr hmm
        omega
      have ht0 : ¬("locality" ∈ t) := by
        intro hmm
        have := List.count_pos_iff.mpr hmm
        omega
      have her : (s ++ "locality" :: t).erase "locality" = s ++ t := by
        rw [List.erase_append_right _ hs0, List.erase_cons_head]
      rw [her]
      have hspec : specAliasAttrs (s ++ "locality" :: t) = s ++ "l" :: t := by
        unfold specAliasAttrs
        rw [List.map_append, List.map_cons, if_pos rfl, map_alias_id s hs0,
          map_alias_id t ht0]
      rw [hspec, List.append_assoc]
      exact List.Perm.append_left s (List.perm_append_singleton "l" t)
    · rw [if_neg hc]
      have hno : ¬("locality" ∈ attrs) := by
        intro hm
        exact hc (by simpa using hm)
      rw [show specAliasAttrs attrs = attrs from map_alias_id attrs hno]

/-- C9 witness: a find with the alias once in the filter and attribute
list, plus a concrete backend entry re-exposed under the public name. -/
theorem c9_witness :
    (host_find_pre_callback "(locality=Dallas)" ["locality", "fqdn"]).1
      = strReplace "(locality=Dallas)" "locality" "l" ∧
    List.Perm (host_find_pre_callback "(locality=Dallas)" ["locality", "fqdn"]).2
      (specAliasAttrs ["locality", "fqdn"]) ∧
    eGetA (exposeEntry [("l", ["Dallas"])]) "locality" = eGetA [("l", ["Dallas"])] "l" ∧
    eGetA (exposeEntry [("l", ["Dallas"])]) "l" = none := by
  obtain ⟨w1, w2, w3⟩ := c9_alias_rewrite "(locality=Dallas)" ["locality", "fqdn"]
    (by decide)
  obtain ⟨w4, w5⟩ := w3 [("l", ["Dallas"])] (by decide)
  exact ⟨w1, w2, w4, w5⟩

end HostPlugin
